import Mathlib

/-
Verification of the GT Utilization Tracker allocation/aggregation core.

Shallow embedding conventions:
* Dates are modelled as integer day numbers with day 0 being a Sunday, so
  `getDay d = d % 7` plays the role of JavaScript `Date.getDay()`
  (0 = Sunday .. 6 = Saturday).  `startOfWeek(date, weekStartsOn: 0)` from
  date-fns becomes `getWeekStart`, and `eachWeekOfInterval` becomes
  `getWeeksInRange` (source: src/lib/utils.ts).
* Hours are rationals (the source stores JS numbers; all arithmetic the
  claims touch is exact on the values involved).
* The Prisma allocation table is a list of rows; `prisma.allocation.upsert`
  with the unique key (consultantId, projectId, weekStart, entryType)
  becomes find-then-update-in-place-or-append.
* Server actions are state passing functions returning `Except String`
  for thrown errors; the NextAuth session is an explicit `SessionUser`
  argument (the session-missing rejection is not modelled since every
  claim concerns authenticated calls).
-/

namespace GTU

/-- Allocation entry type, from the Prisma enum used throughout the source. -/
inductive AllocationEntryType
  | ACTUAL
  | PROJECTED
deriving DecidableEq

/-- PTO request status, from the Prisma enum. -/
inductive PTOStatus
  | PENDING
  | APPROVED
  | DENIED
deriving DecidableEq

/-- User role, from the Prisma enum. -/
inductive UserRole
  | ADMIN
  | MANAGER
  | EMPLOYEE
deriving DecidableEq

/-- The past / current / future classification of a week (spec 4.1). -/
inductive WeekClass
  | PAST
  | CURRENT
  | FUTURE
deriving DecidableEq

/-- Utilization status returned by `getUtilizationStatus` in src/lib/utils.ts. -/
inductive UtilStatus
  | under
  | normal
  | over
deriving DecidableEq

/-- JavaScript `Date.getDay()` on our integer dates: 0 = Sunday .. 6 = Saturday. -/
def getDay (d : Int) : Int := d % 7

/-- `getWeekStart` from src/lib/utils.ts: `startOfWeek(date, weekStartsOn: 0)`,
the most recent Sunday at or before the date. -/
def getWeekStart (d : Int) : Int := d - d % 7

/-- `getWeeksInRange` from src/lib/utils.ts: `eachWeekOfInterval` with
`weekStartsOn: 0`, i.e. the week starts of all weeks meeting [s, e]. -/
def getWeeksInRange (s e : Int) : List Int :=
  (List.range ((e / 7 - s / 7).toNat + 1)).map
    (fun i : Nat => getWeekStart s + 7 * (i : Int))

/-- `classify(weekStart, now)` (spec 4.1); matches the week-cell editor logic
`isPast = weekDate < currentWeekStart`, `isFuture = weekDate > currentWeekStart`
(src/components/utilization/week-cell-editor.tsx lines 76-80). -/
def classifyWeek (w now : Int) : WeekClass :=
  if w < getWeekStart now then .PAST
  else if getWeekStart now < w then .FUTURE
  else .CURRENT

/-- `getUtilizationStatus` from src/lib/utils.ts lines 288-296. -/
def getUtilizationStatus (hours standardHours : ℚ) : UtilStatus :=
  if hours / standardHours < 0.9 then .under
  else if hours / standardHours > 1.1 then .over
  else .normal

/-- Allocation row, from the Prisma `Allocation` model (timestamps omitted:
no claim mentions them). -/
structure Allocation where
  consultantId : String
  projectId : String
  weekStart : Int
  hours : ℚ
  entryType : AllocationEntryType
  notes : Option String
  createdById : Option String
deriving DecidableEq

/-- The unique composite key (consultantId, projectId, weekStart, entryType)
of the Prisma schema, as referenced by every `upsert`, `findUnique` and
`delete` in the source. -/
abbrev AllocKey := String × String × Int × AllocationEntryType

def Allocation.key (a : Allocation) : AllocKey :=
  (a.consultantId, a.projectId, a.weekStart, a.entryType)

/-- The persisted allocation table. -/
abbrev Store := List Allocation

/-- `prisma.allocation.findUnique` on the composite key. -/
def findUnique (s : Store) (k : AllocKey) : Option Allocation :=
  s.find? (fun a => decide (a.key = k))

/-- `prisma.allocation.upsert`: update the row with the given unique key in
place, or append a freshly created row.  Returns the new table and the
upserted row. -/
def upsertAllocation (s : Store) (k : AllocKey) (upd : Allocation → Allocation)
    (created : Allocation) : Store × Allocation :=
  match findUnique s k with
  | some existing => (s.map (fun a => if a.key = k then upd a else a), upd existing)
  | none => (s ++ [created], created)

/-- The NextAuth session user threaded explicitly (src/lib/auth.ts). -/
structure SessionUser where
  id : String
  role : UserRole
  consultantId : Option String
deriving DecidableEq

/-- `updateAllocation` server action (utilization actions, lines 142-199).
The session-missing rejection is outside the model; `users` is the user
table consulted by the stale-session check that decides `createdById`.
Note the source performs no validation of `hours` and no past/future check:
it normalizes the week and upserts unconditionally. -/
def updateAllocation (users : List String) (session : SessionUser) (s : Store)
    (consultantId : String) (weekStart : Int) (projectId : String) (hours : ℚ)
    (entryType : AllocationEntryType) (notes : Option String) :
    Except String (Store × Allocation) :=
  if session.role = .EMPLOYEE ∧ session.consultantId ≠ some consultantId then
    .error "You can only edit your own allocations"
  else
    .ok (upsertAllocation s (consultantId, projectId, getWeekStart weekStart, entryType)
      (fun a => { a with hours := hours, notes := notes.orElse (fun _ => a.notes) })
      { consultantId := consultantId, projectId := projectId,
        weekStart := getWeekStart weekStart, hours := hours, entryType := entryType,
        notes := notes,
        createdById := if users.contains session.id then some session.id else none })

/-- `deleteAllocation` server action (utilization actions, lines 201-230);
`prisma.allocation.delete` throws when the row is absent. -/
def deleteAllocation (session : SessionUser) (s : Store) (consultantId projectId : String)
    (weekStart : Int) (entryType : AllocationEntryType) : Except String Store :=
  if session.role = .EMPLOYEE ∧ session.consultantId ≠ some consultantId then
    .error "You can only delete your own allocations"
  else
    match findUnique s (consultantId, projectId, getWeekStart weekStart, entryType) with
    | none => .error "Record to delete does not exist"
    | some _ => .ok (s.filter (fun a =>
        !(decide (a.key = (consultantId, projectId, getWeekStart weekStart, entryType)))))

/-- Per-project detail line of a grid cell, also the `details` prop of the
week-cell editor.  The display-only join fields (projectName, timecode,
createdBy email, updatedAt) are omitted; no claim mentions them. -/
structure AllocationDetail where
  projectId : String
  hours : ℚ
  entryType : AllocationEntryType
  notes : Option String
deriving DecidableEq

/-- Local editor row of the week-cell editor. -/
structure EditedAllocation where
  projectId : String
  actualHours : ℚ
  projectedHours : ℚ
  notes : String
deriving DecidableEq

/-- A persistence call issued by the week-cell editor save flow: either a
`updateAllocation` or a `deleteAllocation` server-action invocation. -/
inductive CellOp
  | update (consultantId : String) (week : Int) (projectId : String) (hours : ℚ)
      (entryType : AllocationEntryType) (notes : Option String)
  | delete (consultantId : String) (projectId : String) (week : Int)
      (entryType : AllocationEntryType)
deriving DecidableEq

/-- JavaScript `allocation.notes || undefined`: the empty string is falsy. -/
def strToNotes (s : String) : Option String :=
  if s = "" then none else some s

/-- The deletions `handleSaveAll` issues for projects removed from the edited
set (week-cell-editor.tsx lines 167-172). -/
def savedDeleteOps (consultantId : String) (week : Int) (details : List AllocationDetail)
    (edited : List EditedAllocation) : List CellOp :=
  (details.filter (fun d => !(edited.any (fun a => a.projectId == d.projectId)))).map
    (fun d => .delete consultantId d.projectId week d.entryType)

/-- The ACTUAL-entry calls `handleSaveAll` issues for one edited row
(week-cell-editor.tsx lines 180-195). -/
def savedActualOps (consultantId : String) (week : Int) (details : List AllocationDetail)
    (isFuture : Bool) (a : EditedAllocation) : List CellOp :=
  if !isFuture && decide (0 < a.actualHours) then
    [.update consultantId week a.projectId a.actualHours .ACTUAL (strToNotes a.notes)]
  else if !isFuture && decide (a.actualHours = 0) then
    if (details.find? (fun d => d.projectId == a.projectId &&
        decide (d.entryType = .ACTUAL))).isSome then
      [.delete consultantId a.projectId week .ACTUAL]
    else []
  else []

/-- The PROJECTED-entry calls `handleSaveAll` issues for one edited row
(week-cell-editor.tsx lines 197-212); note there is no temporal guard here. -/
def savedProjectedOps (consultantId : String) (week : Int) (details : List AllocationDetail)
    (a : EditedAllocation) : List CellOp :=
  if 0 < a.projectedHours then
    [.update consultantId week a.projectId a.projectedHours .PROJECTED (strToNotes a.notes)]
  else if a.projectedHours = 0 then
    if (details.find? (fun d => d.projectId == a.projectId &&
        decide (d.entryType = .PROJECTED))).isSome then
      [.delete consultantId a.projectId week .PROJECTED]
    else []
  else []

/-- The full sequence of persistence calls issued by `handleSaveAll` of the
week-cell editor, in source order.  `isFuture` is computed exactly as in the
component: the edited week lies after the week containing `now`. -/
def handleSaveAllOps (consultantId : String) (week now : Int)
    (details : List AllocationDetail) (edited : List EditedAllocation) : List CellOp :=
  savedDeleteOps consultantId week details edited ++
    edited.flatMap (fun a =>
      savedActualOps consultantId week details (decide (getWeekStart now < week)) a ++
      savedProjectedOps consultantId week details a)

/-- Consultant record (fields the core logic reads). -/
structure Consultant where
  id : String
  name : String
  standardHours : ℚ
deriving DecidableEq

inductive ProjectType
  | BILLABLE
  | ASSIGNED
  | FILLER
  | PROJECTED
deriving DecidableEq

inductive ProjectStatus
  | ACTIVE
  | INACTIVE
deriving DecidableEq

/-- Project record (fields the core logic reads). -/
structure Project where
  id : String
  client : String
  projectName : String
  timecode : String
  type : ProjectType
  status : ProjectStatus
deriving DecidableEq

/-- Input of the mass-load actions, after the zod schema's shape. -/
structure MassLoadFormData where
  consultantIds : List String
  projectId : String
  startDate : Int
  endDate : Option Int
  hours : ℚ
  entryType : AllocationEntryType
  notes : Option String
deriving DecidableEq

structure MassLoadResult where
  created : Nat
  updated : Nat
  errors : List String
deriving DecidableEq

/-- The zod `massLoadSchema` checks the model can express: nonempty
consultant list, nonempty project id, hours within [0.5, 80].  (The
string-typed date field presence checks have no content on Int dates.) -/
def validateMassLoad (d : MassLoadFormData) : Bool :=
  decide (d.consultantIds ≠ []) && decide (d.projectId ≠ "") &&
    decide ((1 : ℚ)/2 ≤ d.hours) && decide (d.hours ≤ 80)

/-- JavaScript `a || b` on optional strings: empty string is falsy. -/
def jsOrStr (a b : Option String) : Option String :=
  match a with
  | some s => if s = "" then b else some s
  | none => b

/-- The row the mass-load week loop creates for week `w`: the prisma create
data of mass-load.ts lines 94-104. -/
def mlRow (cid pid : String) (hours : ℚ) (et : AllocationEntryType)
    (notes : Option String) (uid : String) (w : Int) : Allocation :=
  { consultantId := cid, projectId := pid, weekStart := getWeekStart w,
    hours := hours, entryType := et, notes := notes, createdById := some uid }

/-- Inner week loop of `createMassLoad` (mass-load.ts lines 66-112):
find the row by unique key, overwrite hours (notes falling back to the
existing notes) counting "updated", or create counting "created". -/
def massLoadWeeks (cid pid : String) (hours : ℚ) (et : AllocationEntryType)
    (notes : Option String) (uid : String) :
    List Int → Store × MassLoadResult → Store × MassLoadResult
  | [], acc => acc
  | week :: rest, (st, r) =>
    match findUnique st (cid, pid, getWeekStart week, et) with
    | some existing =>
        massLoadWeeks cid pid hours et notes uid rest
          (st.map (fun a => if a.key = (cid, pid, getWeekStart week, et) then
              { a with hours := hours, notes := jsOrStr notes existing.notes } else a),
            { r with updated := r.updated + 1 })
    | none =>
        massLoadWeeks cid pid hours et notes uid rest
          (st ++ [mlRow cid pid hours et notes uid week],
            { r with created := r.created + 1 })

/-- Outer consultant loop of `createMassLoad` (mass-load.ts lines 55-113):
a missing consultant is recorded in the error list and skipped. -/
def massLoadConsultants (consultantsTable : List Consultant) (pid : String) (hours : ℚ)
    (et : AllocationEntryType) (notes : Option String) (uid : String) (weeks : List Int) :
    List String → Store × MassLoadResult → Store × MassLoadResult
  | [], acc => acc
  | cid :: rest, (st, r) =>
    match consultantsTable.find? (fun c => c.id == cid) with
    | none =>
        massLoadConsultants consultantsTable pid hours et notes uid weeks rest
          (st, { r with errors := r.errors ++ ["Consultant " ++ cid ++ " not found"] })
    | some _ =>
        massLoadConsultants consultantsTable pid hours et notes uid weeks rest
          (massLoadWeeks cid pid hours et notes uid weeks (st, r))

/-- The week list a mass-load request expands over (spec helper). -/
def massLoadWeeksOf (d : MassLoadFormData) : List Int :=
  getWeeksInRange d.startDate (d.endDate.getD d.startDate)

/-- All rows a fresh mass-load run creates, in loop order (spec helper). -/
def massLoadRows (d : MassLoadFormData) (uid : String) : Store :=
  d.consultantIds.flatMap (fun cid =>
    (massLoadWeeksOf d).map (mlRow cid d.projectId d.hours d.entryType d.notes uid))

/-- `createMassLoad` server action (mass-load.ts lines 22-119). -/
def createMassLoad (consultantsTable : List Consultant) (projects : List Project)
    (session : SessionUser) (s : Store) (d : MassLoadFormData) :
    Except String (Store × MassLoadResult) :=
  if ¬(session.role = .ADMIN ∨ session.role = .MANAGER) then .error "Unauthorized"
  else if validateMassLoad d = false then .error "Invalid input"
  else
    match projects.find? (fun p => p.id == d.projectId) with
    | none => .error "Project not found"
    | some _ =>
      .ok (massLoadConsultants consultantsTable d.projectId d.hours d.entryType d.notes
        session.id (getWeeksInRange d.startDate (d.endDate.getD d.startDate))
        d.consultantIds (s, ⟨0, 0, []⟩))

/-- PTO request record; clock times are (hour, minute) pairs standing for the
parsed "HH:MM" strings. -/
structure PTORequest where
  id : String
  consultantId : String
  startDate : Int
  endDate : Int
  allDay : Bool
  startTime : Option (Int × Int)
  endTime : Option (Int × Int)
  status : PTOStatus
  approvedById : Option String
deriving DecidableEq

def findReq (reqs : List PTORequest) (id : String) : Option PTORequest :=
  reqs.find? (fun r => r.id == id)

/-- Hours per day of a PTO request (pto.ts lines 160-167): 8 for all-day,
else derived from the clock times; also 8 when times are absent. -/
def hoursPerDayOf (p : PTORequest) : ℚ :=
  match p.allDay, p.startTime, p.endTime with
  | false, some st, some et => ((et.1 : ℚ) - (st.1 : ℚ)) + ((et.2 : ℚ) - (st.2 : ℚ)) / 60
  | _, _, _ => 8

/-- Count of days in [lo, hi] whose weekday is neither Sunday nor Saturday
(the while loops of pto.ts lines 174-181 and 193-199). -/
def businessDayCount (lo hi : Int) : Nat :=
  ((List.range (hi - lo + 1).toNat).map (fun i : Nat => lo + (i : Int))).countP
    (fun d => decide (getDay d ≠ 0 ∧ getDay d ≠ 6))

/-- Hours a PTO request contributes to the week starting at `w`: business
days in the intersection of the week span and the request span, times the
hours-per-day (pto.ts lines 186-201). -/
def ptoWeekHours (pto : PTORequest) (hpd : ℚ) (w : Int) : ℚ :=
  (businessDayCount (max w pto.startDate) (min (w + 6) pto.endDate) : ℚ) * hpd

/-- The note written on a freshly created PTO allocation (locale date
formatting abstracted to the integer day numbers). -/
def ptoNote (pto : PTORequest) : String :=
  "PTO: " ++ toString pto.startDate ++ " - " ++ toString pto.endDate

/-- Per-week upsert loop of `approvePTORequest` (pto.ts lines 186-227):
skip weeks contributing no hours, otherwise increment the existing
(consultant, PTO project, week, ACTUAL) row or create it. -/
def ptoWeeksLoop (pto : PTORequest) (pid : String) (hpd : ℚ) (uid : String) :
    List Int → Store → Store
  | [], s => s
  | w :: rest, s =>
    if 0 < ptoWeekHours pto hpd w then
      ptoWeeksLoop pto pid hpd uid rest
        (match findUnique s (pto.consultantId, pid, getWeekStart w, .ACTUAL) with
          | some _ =>
              s.map (fun a =>
                if a.key = (pto.consultantId, pid, getWeekStart w, .ACTUAL) then
                  { a with hours := a.hours + ptoWeekHours pto hpd w } else a)
          | none =>
              s ++ [{ consultantId := pto.consultantId, projectId := pid,
                      weekStart := getWeekStart w, hours := ptoWeekHours pto hpd w,
                      entryType := .ACTUAL, notes := some (ptoNote pto),
                      createdById := some uid }])
    else ptoWeeksLoop pto pid hpd uid rest s

/-- Find-or-create of the sentinel PTO project (pto.ts lines 137-152);
`freshId` stands for the id the database would mint. -/
def resolvePTOProject (projects : List Project) (freshId : String) : Project :=
  match projects.find? (fun p => p.timecode == "INT-PTO-001") with
  | some p => p
  | none =>
      { id := freshId, client := "Internal", projectName := "PTO",
        timecode := "INT-PTO-001", type := .ASSIGNED, status := .ACTIVE }

structure PTOApproveOutcome where
  projects : List Project
  store : Store
  requests : List PTORequest
  updated : PTORequest
deriving DecidableEq

/-- `approvePTORequest` server action (pto.ts lines 118-241).  The
informational `totalPTOHours` computation writes nothing and is omitted. -/
def approvePTORequest (reqs : List PTORequest) (projects : List Project)
    (session : SessionUser) (s : Store) (freshProjectId : String) (id : String) :
    Except String PTOApproveOutcome :=
  if ¬(session.role = .ADMIN ∨ session.role = .MANAGER) then .error "Unauthorized"
  else
    match findReq reqs id with
    | none => .error "PTO request not found"
    | some pto =>
      if pto.status ≠ .PENDING then .error "PTO request is not pending"
      else
        .ok { projects :=
                if (projects.find? (fun p => p.timecode == "INT-PTO-001")).isSome
                then projects
                else projects ++ [resolvePTOProject projects freshProjectId],
              store := ptoWeeksLoop pto (resolvePTOProject projects freshProjectId).id
                (hoursPerDayOf pto) session.id
                (getWeeksInRange pto.startDate pto.endDate) s,
              requests := reqs.map (fun r =>
                if r.id = id
                then { pto with status := .APPROVED, approvedById := some session.id }
                else r),
              updated := { pto with
                           status := .APPROVED,
                           approvedById := some session.id } }

/-- `denyPTORequest` server action (pto.ts lines 243-271). -/
def denyPTORequest (reqs : List PTORequest) (session : SessionUser) (id : String) :
    Except String (List PTORequest × PTORequest) :=
  if ¬(session.role = .ADMIN ∨ session.role = .MANAGER) then .error "Unauthorized"
  else
    match findReq reqs id with
    | none => .error "PTO request not found"
    | some pto =>
      if pto.status ≠ .PENDING then .error "PTO request is not pending"
      else
        .ok (reqs.map (fun r =>
              if r.id = id
              then { pto with status := .DENIED, approvedById := some session.id }
              else r),
            { pto with status := .DENIED, approvedById := some session.id })

/-- `deletePTORequest` server action (pto.ts lines 273-302); the pending
check precedes the ownership check. -/
def deletePTORequest (reqs : List PTORequest) (session : SessionUser) (id : String) :
    Except String (List PTORequest) :=
  match findReq reqs id with
  | none => .error "PTO request not found"
  | some pto =>
    if pto.status ≠ .PENDING then .error "Can only delete pending PTO requests"
    else if session.role = .EMPLOYEE ∧ session.consultantId ≠ some pto.consultantId then
      .error "You can only delete your own PTO requests"
    else .ok (reqs.filter (fun r => !(r.id == id)))

def toDetail (a : Allocation) : AllocationDetail :=
  ⟨a.projectId, a.hours, a.entryType, a.notes⟩

/-- One grid cell (utilization actions, interface on lines 24-37). -/
structure Cell where
  actual : ℚ
  projected : ℚ
  details : List AllocationDetail
deriving DecidableEq

/-- The allocation map keyed by (consultantId, week start); the week key is
the integer date itself (`formatDateUTC` is injective on dates). -/
abbrev CellMap := List ((String × Int) × Cell)

def lookupCell (m : CellMap) (k : String × Int) : Option Cell :=
  (m.find? (fun e => decide (e.1 = k))).map (fun e => e.2)

/-- The dense initialization loop (utilization actions, lines 92-101):
every (consultant, week) pair gets an all-zero cell. -/
def initCells (consultants : List Consultant) (weeks : List Int) : CellMap :=
  consultants.flatMap (fun c => weeks.map (fun w => ((c.id, w), (⟨0, 0, []⟩ : Cell))))

/-- Folding one fetched allocation into its cell (lines 110-125). -/
def addToCell (cell : Cell) (a : Allocation) : Cell :=
  let c2 : Cell :=
    if a.entryType = .ACTUAL then { cell with actual := cell.actual + a.hours }
    else { cell with projected := cell.projected + a.hours }
  { c2 with details := c2.details ++ [toDetail a] }

/-- The guarded accumulation of lines 103-127: an allocation is folded in
only when its (consultant, week) key already exists in the map. -/
def applyAllocation (m : CellMap) (a : Allocation) : CellMap :=
  let k := (a.consultantId, a.weekStart)
  if (m.find? (fun e => decide (e.1 = k))).isSome then
    m.map (fun e => if e.1 = k then (e.1, addToCell e.2 a) else e)
  else m

/-- The range fetch of lines 66-72: rows whose weekStart lies in [startD, endD]. -/
def fetchAllocations (s : Store) (startD endD : Int) : Store :=
  s.filter (fun a => decide (startD ≤ a.weekStart) && decide (a.weekStart ≤ endD))

structure UtilizationData where
  weeks : List Int
  cells : CellMap
deriving DecidableEq

/-- `getUtilizationData` (utilization actions, lines 40-140), for an explicit
date range; the consultant echo fields of the result are omitted. -/
def getUtilizationData (consultants : List Consultant) (s : Store)
    (startD endD : Int) : UtilizationData :=
  let weeks := getWeeksInRange startD endD
  let fetched := fetchAllocations s startD endD
  { weeks := weeks, cells := fetched.foldl applyAllocation (initCells consultants weeks) }

/-- Sum of hours over the rows of a table matching consultant, week and
entry type (the value a grid cell is specified to show). -/
def sumHours (rows : Store) (cid : String) (w : Int) (et : AllocationEntryType) : ℚ :=
  ((rows.filter (fun a =>
    decide (a.consultantId = cid ∧ a.weekStart = w ∧ a.entryType = et))).map
      (fun a => a.hours)).sum

/-- The rows of a table for one consultant and week, in table order. -/
def rowsFor (rows : Store) (cid : String) (w : Int) : Store :=
  rows.filter (fun a => decide (a.consultantId = cid ∧ a.weekStart = w))

/-- The uniqueness invariant: at most one row per composite key. -/
def UniqueKeys (s : Store) : Prop :=
  s.Pairwise (fun a b => a.key ≠ b.key)

/-- An administrator session used by concrete instantiations. -/
def adminSession : SessionUser := ⟨"u1", .ADMIN, none⟩

/-- Concrete row: a negative-hours ACTUAL entry (for C8). -/
def negRow : Allocation :=
  { consultantId := "c1", projectId := "p1", weekStart := 0, hours := -5,
    entryType := .ACTUAL, notes := none, createdById := some "u1" }

/-- Concrete row: an ACTUAL entry on the future week 7 (for C1). -/
def futureActualRow : Allocation :=
  { consultantId := "c1", projectId := "p1", weekStart := 7, hours := 5,
    entryType := .ACTUAL, notes := none, createdById := some "u1" }

/-- Concrete editor details: one existing PROJECTED row on project p1. -/
def exDetails : List AllocationDetail := [⟨"p1", 8, .PROJECTED, none⟩]

/-- Concrete editor state driving project p1 to zero hours. -/
def exEdited : List EditedAllocation := [⟨"p1", 0, 0, ""⟩]

/-- Concrete mass-load input with negative hours (for C8). -/
def exMassLoadNeg : MassLoadFormData :=
  { consultantIds := ["c1"], projectId := "p1", startDate := 0, endDate := none,
    hours := -5, entryType := .ACTUAL, notes := none }

/-- Concrete already-approved PTO request (for C5). -/
def exPTOApproved : PTORequest :=
  { id := "r1", consultantId := "c1", startDate := 1, endDate := 5, allDay := true,
    startTime := none, endTime := none, status := .APPROVED,
    approvedById := some "u0" }

/-- Concrete mass-load input over two consultants and the two weeks starting
on days 0 and 7 (for the C3 witness). -/
def exMassLoadOk : MassLoadFormData :=
  { consultantIds := ["c1", "c2"], projectId := "p1", startDate := 0,
    endDate := some 7, hours := 8, entryType := .PROJECTED, notes := none }

/-- Concrete consultant table (for the C3 witness). -/
def exConsultantsML : List Consultant :=
  [⟨"c1", "Jane", 40⟩, ⟨"c2", "John", 40⟩]

/-- Concrete project table (for the C3 witness). -/
def exProjects : List Project :=
  [⟨"p1", "Acme Corp", "Website Redesign", "ACME-WEB-001", .BILLABLE, .ACTIVE⟩]

/-- Concrete pending all-day PTO request over Monday..Friday of week 0
(days 1 to 5), for the C2 witness. -/
def exPTOPending : PTORequest :=
  { id := "r2", consultantId := "c1", startDate := 1, endDate := 5, allDay := true,
    startTime := none, endTime := none, status := .PENDING, approvedById := none }

/-- Concrete consultant list for the C6 counterexample. -/
def exConsultants : List Consultant := [⟨"c1", "Jane", 40⟩]

/-- Concrete store for the C6 counterexample: one ACTUAL row of 5 hours keyed
to the Sunday of week 0. -/
def exStoreC6 : Store :=
  [{ consultantId := "c1", projectId := "p1", weekStart := 0, hours := 5,
     entryType := .ACTUAL, notes := none, createdById := none }]

theorem getWeekStart_weeksInRange {s e w : Int} (hw : w ∈ getWeeksInRange s e) :
    getWeekStart w = w := by
  simp only [getWeeksInRange, List.mem_map, List.mem_range] at hw
  obtain ⟨i, _, rfl⟩ := hw
  simp only [getWeekStart]
  omega

theorem mem_getWeeksInRange {s e : Int} (h : s ≤ e) (w : Int) :
    w ∈ getWeeksInRange s e ↔ (getWeekStart w = w ∧ s ≤ w + 6 ∧ w ≤ e) := by
  simp only [getWeeksInRange, List.mem_map, List.mem_range, getWeekStart]
  constructor
  · rintro ⟨i, hi, rfl⟩
    omega
  · rintro ⟨h1, h2, h3⟩
    refine ⟨(w / 7 - s / 7).toNat, ?_, ?_⟩ <;> omega

theorem getWeeksInRange_pairwise (s e : Int) :
    (getWeeksInRange s e).Pairwise (· < ·) := by
  unfold getWeeksInRange
  rw [List.pairwise_map]
  refine (List.pairwise_lt_range _).imp ?_
  intro a b hab
  omega

/-- C9: for start ≤ end, `getWeeksInRange` returns only Sunday-aligned dates
(fixed points of `getWeekStart`), strictly increasing, and its members are
exactly the week starts of the weeks overlapping [start, end]. -/
theorem C9_getWeeksInRange_spec (s e : Int) (h : s ≤ e) :
    (∀ w ∈ getWeeksInRange s e, getWeekStart w = w) ∧
    (getWeeksInRange s e).Pairwise (· < ·) ∧
    (∀ w : Int, w ∈ getWeeksInRange s e ↔
      (getWeekStart w = w ∧ s ≤ w + 6 ∧ w ≤ e)) :=
  ⟨fun _ hw => getWeekStart_weeksInRange hw,
   getWeeksInRange_pairwise s e,
   mem_getWeeksInRange h⟩

/-- C9 witness: instantiation at the range [3, 10] (a Wednesday through the
following Wednesday), whose overlapping weeks start on days 0 and 7. -/
theorem C9_getWeeksInRange_spec_witness :
    (3 : Int) ≤ 10 ∧
    ((0 : Int) ∈ getWeeksInRange 3 10 ↔
      (getWeekStart 0 = 0 ∧ (3 : Int) ≤ 0 + 6 ∧ (0 : Int) ≤ 10)) :=
  ⟨by decide, (C9_getWeeksInRange_spec 3 10 (by decide)).2.2 0⟩

/-- C7: with standardHours > 0, the classification is `under` exactly when
hours / standardHours < 0.9, `over` exactly when hours / standardHours > 1.1,
and the boundary values 0.9 × standardHours and 1.1 × standardHours are
classified `normal`. -/
theorem C7_getUtilizationStatus_spec (h s : ℚ) (hs : 0 < s) :
    (getUtilizationStatus h s = .under ↔ h / s < 9/10) ∧
    (getUtilizationStatus h s = .over ↔ 11/10 < h / s) ∧
    getUtilizationStatus (9/10 * s) s = .normal ∧
    getUtilizationStatus (11/10 * s) s = .normal := by
  have e9 : (0.9 : ℚ) = 9/10 := by norm_num
  have e11 : (1.1 : ℚ) = 11/10 := by norm_num
  have hv9 : (9:ℚ)/10 * s / s = 9/10 := by
    field_simp
    ring
  have hv11 : (11:ℚ)/10 * s / s = 11/10 := by
    field_simp
    ring
  refine ⟨?_, ?_, ?_, ?_⟩
  · unfold getUtilizationStatus
    rw [e9, e11]
    split_ifs with h1 h2 <;> simp_all
  · unfold getUtilizationStatus
    rw [e9, e11]
    split_ifs with h1 h2 <;> simp_all
    linarith
  · unfold getUtilizationStatus
    rw [e9, e11, hv9]
    norm_num
  · unfold getUtilizationStatus
    rw [e9, e11, hv11]
    norm_num

/-- C7 witness: a 36-hour cell against 40 standard hours sits exactly on the
0.9 boundary, hence is not `under`. -/
theorem C7_getUtilizationStatus_spec_witness :
    (0 : ℚ) < 40 ∧
    (getUtilizationStatus 36 40 = .under ↔ (36 : ℚ) / 40 < 9/10) :=
  ⟨by norm_num, (C7_getUtilizationStatus_spec 36 40 (by norm_num)).1⟩

theorem findUnique_nil (k : AllocKey) : findUnique [] k = none := rfl

theorem findUnique_cons (a : Allocation) (t : Store) (k : AllocKey) :
    findUnique (a :: t) k = if a.key = k then some a else findUnique t k := by
  unfold findUnique
  by_cases h : a.key = k
  · rw [List.find?_cons_of_pos _ (by simpa using h), if_pos h]
  · rw [List.find?_cons_of_neg _ (by simpa using h), if_neg h]

theorem findUnique_append (s t : Store) (k : AllocKey) :
    findUnique (s ++ t) k =
      match findUnique s k with
      | some a => some a
      | none => findUnique t k := by
  induction s with
  | nil => simp [findUnique_nil]
  | cons a s ih =>
    rw [List.cons_append, findUnique_cons, findUnique_cons]
    by_cases h : a.key = k
    · simp [h]
    · simp [h, ih]

theorem findUnique_map_upd (s : Store) (k : AllocKey) (f : Allocation → Allocation)
    (hf : ∀ a, (f a).key = a.key) (k' : AllocKey) :
    findUnique (s.map (fun a => if a.key = k then f a else a)) k' =
      if k' = k then (findUnique s k).map f else findUnique s k' := by
  induction s with
  | nil => simp [findUnique_nil]
  | cons a s ih =>
    rw [List.map_cons, findUnique_cons, findUnique_cons, findUnique_cons]
    have hfa := hf a
    by_cases hk : a.key = k
    · by_cases hkk : k' = k
      · subst hkk
        simp [hk, hfa]
      · have hne : (f a).key ≠ k' := by
          rw [hfa, hk]
          exact fun h => hkk h.symm
        have hne2 : a.key ≠ k' := by
          rw [hk]
          exact fun h => hkk h.symm
        have hkk2 : k ≠ k' := fun hh => hkk hh.symm
        simp [hk, hkk, hne, hne2, hkk2, ih]
    · by_cases hkk : k' = k
      · subst hkk
        simp [hk, ih]
      · simp [hk, hkk, ih]

theorem upsertAllocation_none {s : Store} {k : AllocKey}
    (f : Allocation → Allocation) (c : Allocation) (h : findUnique s k = none) :
    upsertAllocation s k f c = (s ++ [c], c) := by
  unfold upsertAllocation
  rw [h]

theorem upsertAllocation_some {s : Store} {k : AllocKey} {a : Allocation}
    (f : Allocation → Allocation) (c : Allocation) (h : findUnique s k = some a) :
    upsertAllocation s k f c = (s.map (fun x => if x.key = k then f x else x), f a) := by
  unfold upsertAllocation
  rw [h]

theorem findUnique_some_key {s : Store} {k : AllocKey} {a : Allocation}
    (h : findUnique s k = some a) : a.key = k := by
  have := List.find?_some h
  simpa using this

theorem findUnique_some_mem {s : Store} {k : AllocKey} {a : Allocation}
    (h : findUnique s k = some a) : a ∈ s :=
  List.mem_of_find?_eq_some h

theorem findUnique_eq_none {s : Store} {k : AllocKey} :
    findUnique s k = none ↔ ∀ a ∈ s, a.key ≠ k := by
  unfold findUnique
  rw [List.find?_eq_none]
  simp

theorem key_set_hours (a : Allocation) (h : ℚ) (n : Option String) :
    (Allocation.key { a with hours := h, notes := n }) = a.key := rfl

theorem key_add_hours (a : Allocation) (v : ℚ) :
    (Allocation.key { a with hours := a.hours + v }) = a.key := rfl

/-- Core behavior of `updateAllocation` on the happy path: the call succeeds,
the upserted row carries the canonical key and exactly the requested hours,
it is found in the resulting table, and no other row is removed. -/
theorem updateAllocation_writes
    (users : List String) (session : SessionUser) (s : Store)
    (cid : String) (w : Int) (pid : String) (h : ℚ)
    (et : AllocationEntryType) (notes : Option String)
    (hauth : ¬(session.role = .EMPLOYEE ∧ session.consultantId ≠ some cid)) :
    ∃ s2 row, updateAllocation users session s cid w pid h et notes = .ok (s2, row) ∧
      row.key = (cid, pid, getWeekStart w, et) ∧ row.hours = h ∧
      findUnique s2 (cid, pid, getWeekStart w, et) = some row ∧
      (∀ a ∈ s, a.key ≠ (cid, pid, getWeekStart w, et) → a ∈ s2) ∧
      s.length ≤ s2.length := by
  unfold updateAllocation
  rw [if_neg hauth]
  cases hfind : findUnique s (cid, pid, getWeekStart w, et) with
  | none =>
    rw [upsertAllocation_none _ _ hfind]
    refine ⟨_, _, rfl, rfl, rfl, ?_, ?_, by simp⟩
    · rw [findUnique_append, hfind, findUnique_cons]
      simp [Allocation.key]
    · intro a ha _
      exact List.mem_append_left _ ha
  | some existing =>
    rw [upsertAllocation_some _ _ hfind]
    refine ⟨_, _, rfl, ?_, rfl, ?_, ?_, by simp⟩
    · rw [key_set_hours]
      exact findUnique_some_key hfind
    · rw [findUnique_map_upd s _ _
        (fun a => key_set_hours a h (notes.orElse (fun _ => a.notes))) _,
        if_pos rfl, hfind]
      rfl
    · intro a ha hne
      exact List.mem_map.mpr ⟨a, ha, by simp [hne]⟩

theorem classifyWeek_future_iff (w now : Int) :
    classifyWeek w now = .FUTURE ↔ getWeekStart now < w := by
  unfold classifyWeek
  split_ifs with h1 h2 <;> simp_all
  omega

theorem classifyWeek_past_iff (w now : Int) :
    classifyWeek w now = .PAST ↔ w < getWeekStart now := by
  unfold classifyWeek
  split_ifs with h1 h2 <;> simp_all

/-- On a FUTURE week the editor save flow issues no ACTUAL update call. -/
theorem handleSaveAllOps_future_no_actual
    (cid : String) (w now : Int) (details : List AllocationDetail)
    (edited : List EditedAllocation) (hf : classifyWeek w now = .FUTURE)
    (pid : String) (h : ℚ) (notes : Option String) :
    CellOp.update cid w pid h .ACTUAL notes ∉ handleSaveAllOps cid w now details edited := by
  have hcur : getWeekStart now < w := (classifyWeek_future_iff w now).mp hf
  have hdec : decide (getWeekStart now < w) = true := decide_eq_true hcur
  intro hmem
  unfold handleSaveAllOps savedDeleteOps at hmem
  rcases List.mem_append.mp hmem with hd | hfm
  · obtain ⟨d, _, hop⟩ := List.mem_map.mp hd
    simp at hop
  · obtain ⟨a, _, hop⟩ := List.mem_flatMap.mp hfm
    rcases List.mem_append.mp hop with hact | hproj
    · unfold savedActualOps at hact
      rw [hdec] at hact
      simp at hact
    · unfold savedProjectedOps at hproj
      split_ifs at hproj <;> simp_all

/-- On any week the editor save flow issues a PROJECTED update call for each
edited row with positive projected hours (no temporal guard exists there). -/
theorem handleSaveAllOps_projected_issued
    (cid : String) (w now : Int) (details : List AllocationDetail)
    (edited : List EditedAllocation) (a : EditedAllocation)
    (ha : a ∈ edited) (hpos : 0 < a.projectedHours) :
    CellOp.update cid w a.projectId a.projectedHours .PROJECTED (strToNotes a.notes) ∈
      handleSaveAllOps cid w now details edited := by
  unfold handleSaveAllOps
  refine List.mem_append_right _ (List.mem_flatMap.mpr ⟨a, ha, ?_⟩)
  refine List.mem_append_right _ ?_
  unfold savedProjectedOps
  rw [if_pos hpos]
  exact List.mem_singleton.mpr rfl

/-- C1 counterexample: with "now" in week 0, week 7 is classified FUTURE, yet
`updateAllocation` accepts an ACTUAL write for it and creates the row — the
write is neither rejected nor ignored at the edit surface. -/
theorem C1_counterexample :
    classifyWeek 7 0 = .FUTURE ∧
    updateAllocation ["u1"] adminSession [] "c1" 7 "p1" 5 .ACTUAL none =
      .ok ([futureActualRow], futureActualRow) ∧
    findUnique [futureActualRow] ("c1", "p1", 7, .ACTUAL) = some futureActualRow :=
  ⟨rfl, rfl, rfl⟩

/-- C1 amended: the temporal editability policy is not enforced at the
`updateAllocation` edit surface, which upserts any entry type for any week
classification; the ACTUAL-on-FUTURE suppression is implemented only in the
client editor flow (`handleSaveAll` issues no ACTUAL update for a FUTURE
week), while a PROJECTED update on a PAST week is still issued by that flow
for every edited row with positive projected hours. -/
theorem C1_amended_policy_at_client_only :
    (∀ (users : List String) (session : SessionUser) (s : Store) (cid : String)
        (w : Int) (pid : String) (h : ℚ) (et : AllocationEntryType)
        (notes : Option String),
      ¬(session.role = .EMPLOYEE ∧ session.consultantId ≠ some cid) →
      ∃ s2 row, updateAllocation users session s cid w pid h et notes = .ok (s2, row) ∧
        findUnique s2 (cid, pid, getWeekStart w, et) = some row) ∧
    (∀ (cid : String) (w now : Int) (details : List AllocationDetail)
        (edited : List EditedAllocation),
      classifyWeek w now = .FUTURE →
      ∀ (pid : String) (h : ℚ) (notes : Option String),
        CellOp.update cid w pid h .ACTUAL notes ∉
          handleSaveAllOps cid w now details edited) ∧
    (∀ (cid : String) (w now : Int) (details : List AllocationDetail)
        (edited : List EditedAllocation) (a : EditedAllocation),
      classifyWeek w now = .PAST → a ∈ edited → 0 < a.projectedHours →
      CellOp.update cid w a.projectId a.projectedHours .PROJECTED (strToNotes a.notes) ∈
        handleSaveAllOps cid w now details edited) := by
  refine ⟨?_, ?_, ?_⟩
  · intro users session s cid w pid h et notes hauth
    obtain ⟨s2, row, heq, _, _, hfind, _, _⟩ :=
      updateAllocation_writes users session s cid w pid h et notes hauth
    exact ⟨s2, row, heq, hfind⟩
  · intro cid w now details edited hf pid h notes
    exact handleSaveAllOps_future_no_actual cid w now details edited hf pid h notes
  · intro cid w now details edited a _ ha hpos
    exact handleSaveAllOps_projected_issued cid w now details edited a ha hpos

/-- C8 counterexample: `updateAllocation` accepts hours = −5 and writes the
row — no validation rejects the negative value before the write. -/
theorem C8_counterexample :
    updateAllocation ["u1"] adminSession [] "c1" 0 "p1" (-5) .ACTUAL none =
      .ok ([negRow], negRow) ∧ negRow.hours < 0 :=
  ⟨rfl, by norm_num [negRow]⟩

/-- C8 amended: `updateAllocation` applies no hours validation — a negative
value is accepted and the row is written with exactly that value; a
negative-hours input is rejected before any write only by the mass-load
action, whose schema bounds hours to [0.5, 80]. -/
theorem C8_amended_no_negative_validation
    (users : List String) (session : SessionUser) (s : Store)
    (cid : String) (w : Int) (pid : String) (h : ℚ)
    (et : AllocationEntryType) (notes : Option String)
    (hneg : h < 0)
    (hauth : ¬(session.role = .EMPLOYEE ∧ session.consultantId ≠ some cid)) :
    (∃ s2 row, updateAllocation users session s cid w pid h et notes = .ok (s2, row) ∧
      row.hours = h ∧ findUnique s2 (cid, pid, getWeekStart w, et) = some row) ∧
    (∀ (ct : List Consultant) (pt : List Project) (sess2 : SessionUser)
        (st : Store) (d : MassLoadFormData), d.hours = h →
      createMassLoad ct pt sess2 st d = .error "Unauthorized" ∨
      createMassLoad ct pt sess2 st d = .error "Invalid input") := by
  constructor
  · obtain ⟨s2, row, heq, _, hh, hfind, _, _⟩ :=
      updateAllocation_writes users session s cid w pid h et notes hauth
    exact ⟨s2, row, heq, hh, hfind⟩
  · intro ct pt sess2 st d hd
    unfold createMassLoad
    by_cases hrole : ¬(sess2.role = .ADMIN ∨ sess2.role = .MANAGER)
    · left
      rw [if_pos hrole]
    · right
      have hval : validateMassLoad d = false := by
        have hlt : ¬((1 : ℚ)/2 ≤ d.hours) := by
          rw [hd]
          linarith
        unfold validateMassLoad
        rw [decide_eq_false hlt]
        simp
      rw [if_neg hrole, if_pos hval]

/-- C10: `updateAllocation` never deletes: every call (including hours = 0)
succeeds and leaves a row with exactly the requested hours under the
canonical key, all rows under other keys are retained and the table never
shrinks; the zero-means-delete reconciliation lives in the client editor
flow, which issues an explicit `deleteAllocation` call when an edited row
with an existing PROJECTED entry is driven to zero. -/
theorem C10_updateAllocation_never_deletes
    (users : List String) (session : SessionUser) (s : Store)
    (cid : String) (w : Int) (pid : String) (h : ℚ)
    (et : AllocationEntryType) (notes : Option String)
    (hauth : ¬(session.role = .EMPLOYEE ∧ session.consultantId ≠ some cid)) :
    (∃ s2 row, updateAllocation users session s cid w pid h et notes = .ok (s2, row) ∧
      row.key = (cid, pid, getWeekStart w, et) ∧ row.hours = h ∧
      findUnique s2 (cid, pid, getWeekStart w, et) = some row ∧
      (∀ a ∈ s, a.key ≠ (cid, pid, getWeekStart w, et) → a ∈ s2) ∧
      s.length ≤ s2.length) ∧
    (∀ (details : List AllocationDetail) (edited : List EditedAllocation)
        (now : Int) (a : EditedAllocation),
      a ∈ edited → a.projectedHours = 0 →
      (details.find? (fun d => d.projectId == a.projectId &&
        decide (d.entryType = .PROJECTED))).isSome →
      CellOp.delete cid a.projectId w .PROJECTED ∈
        handleSaveAllOps cid w now details edited) := by
  constructor
  · exact updateAllocation_writes users session s cid w pid h et notes hauth
  · intro details edited now a ha hz hex
    unfold handleSaveAllOps
    refine List.mem_append_right _ (List.mem_flatMap.mpr ⟨a, ha, ?_⟩)
    refine List.mem_append_right _ ?_
    unfold savedProjectedOps
    rw [if_neg (by rw [hz]; norm_num), if_pos hz, if_pos hex]
    exact List.mem_singleton.mpr rfl

/-- C10 witness: an admin call with hours = 0 on an empty store creates and
retains a zero-hour ACTUAL row, and the editor flow with an existing
PROJECTED detail driven to zero issues an explicit delete call. -/
theorem C10_updateAllocation_never_deletes_witness :
    ¬(adminSession.role = .EMPLOYEE ∧ adminSession.consultantId ≠ some "c1") ∧
    (∃ s2 row, updateAllocation ["u1"] adminSession [] "c1" 0 "p1" 0 .ACTUAL none =
        .ok (s2, row) ∧
      row.key = ("c1", "p1", getWeekStart 0, .ACTUAL) ∧ row.hours = 0 ∧
      findUnique s2 ("c1", "p1", getWeekStart 0, .ACTUAL) = some row ∧
      (∀ a ∈ ([] : Store), a.key ≠ ("c1", "p1", getWeekStart 0, .ACTUAL) → a ∈ s2) ∧
      ([] : Store).length ≤ s2.length) ∧
    CellOp.delete "c1" "p1" 0 .PROJECTED ∈ handleSaveAllOps "c1" 0 0 exDetails exEdited := by
  have H := C10_updateAllocation_never_deletes ["u1"] adminSession []
    "c1" 0 "p1" 0 .ACTUAL none (by decide)
  refine ⟨by decide, H.1, ?_⟩
  exact H.2 exDetails exEdited 0 ⟨"p1", 0, 0, ""⟩ (List.mem_singleton.mpr rfl) rfl rfl

/-- C8 witness: a concrete −5-hour call is accepted by updateAllocation and
rejected by the mass-load schema. -/
theorem C8_amended_no_negative_validation_witness :
    (-5 : ℚ) < 0 ∧
    ¬(adminSession.role = .EMPLOYEE ∧ adminSession.consultantId ≠ some "c1") ∧
    (∃ s2 row, updateAllocation ["u1"] adminSession [] "c1" 0 "p1" (-5) .ACTUAL none =
        .ok (s2, row) ∧
      row.hours = -5 ∧ findUnique s2 ("c1", "p1", getWeekStart 0, .ACTUAL) = some row) ∧
    (createMassLoad [] [] adminSession [] exMassLoadNeg = .error "Unauthorized" ∨
      createMassLoad [] [] adminSession [] exMassLoadNeg = .error "Invalid input") := by
  have H := C8_amended_no_negative_validation ["u1"] adminSession [] "c1" 0 "p1" (-5)
    .ACTUAL none (by norm_num) (by decide)
  exact ⟨by norm_num, by decide, H.1, H.2 [] [] adminSession [] exMassLoadNeg rfl⟩

/-- C5: APPROVED and DENIED are terminal.  For a request whose status is not
PENDING, approve and deny fail with the not-pending error (for an elevated
session) and delete fails with its pending-only error for any session; each
operation returns an error, so no allocation write and no request or
approver change occurs. -/
theorem C5_terminal_states
    (reqs : List PTORequest) (projects : List Project) (session session2 : SessionUser)
    (s : Store) (fid id : String) (pto : PTORequest)
    (hreq : findReq reqs id = some pto) (hst : pto.status ≠ .PENDING)
    (hrole : session.role = .ADMIN ∨ session.role = .MANAGER) :
    approvePTORequest reqs projects session s fid id =
      .error "PTO request is not pending" ∧
    denyPTORequest reqs session id = .error "PTO request is not pending" ∧
    deletePTORequest reqs session2 id =
      .error "Can only delete pending PTO requests" := by
  have hcond : ¬¬(session.role = .ADMIN ∨ session.role = .MANAGER) := not_not_intro hrole
  refine ⟨?_, ?_, ?_⟩
  · simp only [approvePTORequest, hreq, if_neg hcond, if_pos hst]
  · simp only [denyPTORequest, hreq, if_neg hcond, if_pos hst]
  · simp only [deletePTORequest, hreq, if_pos hst]

/-- C5 witness: instantiation at a concrete APPROVED request. -/
theorem C5_terminal_states_witness :
    findReq [exPTOApproved] "r1" = some exPTOApproved ∧
    exPTOApproved.status ≠ .PENDING ∧
    approvePTORequest [exPTOApproved] [] adminSession [] "fp" "r1" =
      .error "PTO request is not pending" ∧
    denyPTORequest [exPTOApproved] adminSession "r1" =
      .error "PTO request is not pending" ∧
    deletePTORequest [exPTOApproved] adminSession "r1" =
      .error "Can only delete pending PTO requests" := by
  have H := C5_terminal_states [exPTOApproved] [] adminSession adminSession [] "fp" "r1"
    exPTOApproved rfl (by decide) (Or.inl rfl)
  exact ⟨rfl, by decide, H.1, H.2.1, H.2.2⟩

theorem UniqueKeys_map_upd {s : Store} {k : AllocKey} {f : Allocation → Allocation}
    (hf : ∀ a, (f a).key = a.key) (h : UniqueKeys s) :
    UniqueKeys (s.map (fun a => if a.key = k then f a else a)) := by
  unfold UniqueKeys at h ⊢
  rw [List.pairwise_map]
  refine h.imp ?_
  intro a b hab
  have ha : ((if a.key = k then f a else a)).key = a.key := by
    split <;> simp [hf]
  have hb : ((if b.key = k then f b else b)).key = b.key := by
    split <;> simp [hf]
  rw [ha, hb]
  exact hab

theorem UniqueKeys_append_one {s : Store} {c : Allocation}
    (h : UniqueKeys s) (hc : findUnique s c.key = none) : UniqueKeys (s ++ [c]) := by
  unfold UniqueKeys at h ⊢
  rw [List.pairwise_append]
  refine ⟨h, List.pairwise_singleton _ _, ?_⟩
  intro a ha b hb
  rw [List.mem_singleton] at hb
  subst hb
  exact findUnique_eq_none.mp hc a ha

theorem UniqueKeys_upsert {s : Store} {k : AllocKey} {f : Allocation → Allocation}
    {c : Allocation} (hf : ∀ a, (f a).key = a.key) (hck : c.key = k)
    (h : UniqueKeys s) : UniqueKeys (upsertAllocation s k f c).1 := by
  cases hfind : findUnique s k with
  | none =>
    rw [upsertAllocation_none _ _ hfind]
    exact UniqueKeys_append_one h (by rw [hck]; exact hfind)
  | some a =>
    rw [upsertAllocation_some _ _ hfind]
    exact UniqueKeys_map_upd hf h

theorem UniqueKeys_filter {s : Store} {p : Allocation → Bool}
    (h : UniqueKeys s) : UniqueKeys (s.filter p) :=
  List.Pairwise.filter _ h

theorem massLoadWeeks_unique (cid pid : String) (hours : ℚ) (et : AllocationEntryType)
    (notes : Option String) (uid : String) :
    ∀ (ws : List Int) (st : Store) (r : MassLoadResult), UniqueKeys st →
      UniqueKeys (massLoadWeeks cid pid hours et notes uid ws (st, r)).1 := by
  intro ws
  induction ws with
  | nil =>
    intro st r h
    exact h
  | cons w rest ih =>
    intro st r h
    cases hf : findUnique st (cid, pid, getWeekStart w, et) with
    | some existing =>
      simp only [massLoadWeeks, hf]
      exact ih _ _ (UniqueKeys_map_upd
        (fun a => key_set_hours a hours (jsOrStr notes existing.notes)) h)
    | none =>
      simp only [massLoadWeeks, hf]
      exact ih _ _ (UniqueKeys_append_one h hf)

theorem massLoadConsultants_unique (ct : List Consultant) (pid : String) (hours : ℚ)
    (et : AllocationEntryType) (notes : Option String) (uid : String) (weeks : List Int) :
    ∀ (ids : List String) (st : Store) (r : MassLoadResult), UniqueKeys st →
      UniqueKeys (massLoadConsultants ct pid hours et notes uid weeks ids (st, r)).1 := by
  intro ids
  induction ids with
  | nil =>
    intro st r h
    exact h
  | cons cid rest ih =>
    intro st r h
    cases hc : ct.find? (fun c => c.id == cid) with
    | none =>
      simp only [massLoadConsultants, hc]
      exact ih _ _ h
    | some c =>
      simp only [massLoadConsultants, hc]
      have h2 := massLoadWeeks_unique cid pid hours et notes uid weeks st r h
      rcases hw : massLoadWeeks cid pid hours et notes uid weeks (st, r) with ⟨st2, r2⟩
      rw [hw] at h2
      exact ih st2 r2 h2

theorem ptoWeeksLoop_unique (pto : PTORequest) (pid : String) (hpd : ℚ) (uid : String) :
    ∀ (ws : List Int) (s : Store), UniqueKeys s →
      UniqueKeys (ptoWeeksLoop pto pid hpd uid ws s) := by
  intro ws
  induction ws with
  | nil =>
    intro s h
    exact h
  | cons w rest ih =>
    intro s h
    by_cases hpos : 0 < ptoWeekHours pto hpd w
    · cases hf : findUnique s (pto.consultantId, pid, getWeekStart w, .ACTUAL) with
      | some a =>
        simp only [ptoWeeksLoop, if_pos hpos, hf]
        exact ih _ (UniqueKeys_map_upd (fun a => rfl) h)
      | none =>
        simp only [ptoWeeksLoop, if_pos hpos, hf]
        exact ih _ (UniqueKeys_append_one h hf)
    · simp only [ptoWeeksLoop, if_neg hpos]
      exact ih _ h

/-- C4: starting from a table in which the composite key identifies at most
one row, every core write operation — updateAllocation, deleteAllocation,
createMassLoad and approvePTORequest — again yields a table with that
property: every write path routes through find-by-unique-key followed by an
in-place update or an append of a key known absent, never a blind insert. -/
theorem C4_unique_key_invariant :
    (∀ (users : List String) (session : SessionUser) (s : Store) (cid : String)
        (w : Int) (pid : String) (h : ℚ) (et : AllocationEntryType)
        (notes : Option String) (s2 : Store) (row : Allocation),
      updateAllocation users session s cid w pid h et notes = .ok (s2, row) →
      UniqueKeys s → UniqueKeys s2) ∧
    (∀ (session : SessionUser) (s : Store) (cid pid : String) (w : Int)
        (et : AllocationEntryType) (s2 : Store),
      deleteAllocation session s cid pid w et = .ok s2 →
      UniqueKeys s → UniqueKeys s2) ∧
    (∀ (ct : List Consultant) (pt : List Project) (session : SessionUser) (s : Store)
        (d : MassLoadFormData) (s2 : Store) (r : MassLoadResult),
      createMassLoad ct pt session s d = .ok (s2, r) →
      UniqueKeys s → UniqueKeys s2) ∧
    (∀ (reqs : List PTORequest) (projects : List Project) (session : SessionUser)
        (s : Store) (fid id : String) (res : PTOApproveOutcome),
      approvePTORequest reqs projects session s fid id = .ok res →
      UniqueKeys s → UniqueKeys res.store) := by
  refine ⟨?_, ?_, ?_, ?_⟩
  · intro users session s cid w pid h et notes s2 row heq hu
    unfold updateAllocation at heq
    by_cases hauth : session.role = .EMPLOYEE ∧ session.consultantId ≠ some cid
    · rw [if_pos hauth] at heq
      exact absurd heq (by simp)
    · rw [if_neg hauth] at heq
      simp only [Except.ok.injEq] at heq
      have hk := UniqueKeys_upsert
        (k := (cid, pid, getWeekStart w, et))
        (f := fun a => { a with hours := h, notes := notes.orElse (fun _ => a.notes) })
        (c := { consultantId := cid, projectId := pid, weekStart := getWeekStart w,
                hours := h, entryType := et, notes := notes,
                createdById := if users.contains session.id then some session.id
                               else none })
        (fun a => key_set_hours a h (notes.orElse (fun _ => a.notes))) rfl hu
      rw [heq] at hk
      exact hk
  · intro session s cid pid w et s2 heq hu
    unfold deleteAllocation at heq
    by_cases hauth : session.role = .EMPLOYEE ∧ session.consultantId ≠ some cid
    · rw [if_pos hauth] at heq
      exact absurd heq (by simp)
    · rw [if_neg hauth] at heq
      cases hf : findUnique s (cid, pid, getWeekStart w, et) with
      | none =>
        rw [hf] at heq
        exact absurd heq (by simp)
      | some a =>
        rw [hf] at heq
        simp only [Except.ok.injEq] at heq
        rw [← heq]
        exact UniqueKeys_filter hu
  · intro ct pt session s d s2 r heq hu
    unfold createMassLoad at heq
    by_cases h1 : ¬(session.role = .ADMIN ∨ session.role = .MANAGER)
    · rw [if_pos h1] at heq
      exact absurd heq (by simp)
    · rw [if_neg h1] at heq
      by_cases h2 : validateMassLoad d = false
      · rw [if_pos h2] at heq
        exact absurd heq (by simp)
      · rw [if_neg h2] at heq
        cases hp : pt.find? (fun p => p.id == d.projectId) with
        | none =>
          rw [hp] at heq
          exact absurd heq (by simp)
        | some p =>
          rw [hp] at heq
          simp only [Except.ok.injEq] at heq
          have hk := massLoadConsultants_unique ct d.projectId d.hours d.entryType d.notes
            session.id (getWeeksInRange d.startDate (d.endDate.getD d.startDate))
            d.consultantIds s ⟨0, 0, []⟩ hu
          rw [heq] at hk
          exact hk
  · intro reqs projects session s fid id res heq hu
    unfold approvePTORequest at heq
    by_cases h1 : ¬(session.role = .ADMIN ∨ session.role = .MANAGER)
    · rw [if_pos h1] at heq
      exact absurd heq (by simp)
    · rw [if_neg h1] at heq
      cases hr : findReq reqs id with
      | none =>
        rw [hr] at heq
        exact absurd heq (by simp)
      | some pto =>
        simp only [hr] at heq
        by_cases h2 : pto.status ≠ .PENDING
        · rw [if_pos h2] at heq
          exact absurd heq (by simp)
        · rw [if_neg h2] at heq
          simp only [Except.ok.injEq] at heq
          rw [← heq]
          exact ptoWeeksLoop_unique pto (resolvePTOProject projects fid).id
            (hoursPerDayOf pto) session.id
            (getWeeksInRange pto.startDate pto.endDate) s hu

theorem lookupCell_nil (k : String × Int) : lookupCell [] k = none := rfl

theorem lookupCell_cons (e : (String × Int) × Cell) (m : CellMap) (k : String × Int) :
    lookupCell (e :: m) k = if e.1 = k then some e.2 else lookupCell m k := by
  unfold lookupCell
  by_cases h : e.1 = k
  · rw [List.find?_cons_of_pos _ (by simpa using h), if_pos h]
    rfl
  · rw [List.find?_cons_of_neg _ (by simpa using h), if_neg h]

theorem lookupCell_append (m1 m2 : CellMap) (k : String × Int) :
    lookupCell (m1 ++ m2) k =
      match lookupCell m1 k with
      | some c => some c
      | none => lookupCell m2 k := by
  induction m1 with
  | nil => simp [lookupCell_nil]
  | cons e m1 ih =>
    rw [List.cons_append, lookupCell_cons, lookupCell_cons]
    by_cases h : e.1 = k
    · simp [h]
    · simp [h, ih]

theorem lookupCell_map_add (m : CellMap) (a : Allocation) (k : String × Int) :
    lookupCell (m.map (fun e => if e.1 = (a.consultantId, a.weekStart)
        then (e.1, addToCell e.2 a) else e)) k =
      if k = (a.consultantId, a.weekStart)
      then (lookupCell m k).map (fun c => addToCell c a)
      else lookupCell m k := by
  induction m with
  | nil => simp [lookupCell_nil]
  | cons e m ih =>
    rw [List.map_cons, lookupCell_cons, lookupCell_cons]
    by_cases he : e.1 = (a.consultantId, a.weekStart)
    · by_cases hk : k = (a.consultantId, a.weekStart)
      · subst hk
        simp [he]
      · have hne : e.1 ≠ k := by
          rw [he]
          exact fun hh => hk hh.symm
        have hak : (a.consultantId, a.weekStart) ≠ k := fun hh => hk hh.symm
        simp [he, hk, hne, hak, ih]
    · by_cases hk : k = (a.consultantId, a.weekStart)
      · have hne : e.1 ≠ k := fun hh => he (hh.trans hk)
        simp [he, hne, ih]
      · simp [he, hk, ih]

theorem lookupCell_applyAllocation (m : CellMap) (a : Allocation) (k : String × Int) :
    lookupCell (applyAllocation m a) k =
      if k = (a.consultantId, a.weekStart)
      then (lookupCell m k).map (fun c => addToCell c a)
      else lookupCell m k := by
  unfold applyAllocation
  by_cases hex : (m.find? (fun e =>
      decide (e.1 = (a.consultantId, a.weekStart)))).isSome
  · rw [if_pos hex]
    exact lookupCell_map_add m a k
  · rw [if_neg hex]
    by_cases hk : k = (a.consultantId, a.weekStart)
    · have hnone : lookupCell m (a.consultantId, a.weekStart) = none := by
        unfold lookupCell
        rw [Option.not_isSome_iff_eq_none.mp hex]
        rfl
      rw [if_pos hk, hk, hnone]
      rfl
    · rw [if_neg hk]

theorem lookupCell_foldl (rows : Store) :
    ∀ (m : CellMap) (k : String × Int),
      lookupCell (rows.foldl applyAllocation m) k =
        (lookupCell m k).map (fun v =>
          (rows.filter (fun a =>
            decide ((a.consultantId, a.weekStart) = k))).foldl addToCell v) := by
  induction rows with
  | nil =>
    intro m k
    cases h : lookupCell m k <;> simp [h]
  | cons a rows ih =>
    intro m k
    rw [List.foldl_cons, ih, List.filter_cons, lookupCell_applyAllocation]
    by_cases hk : (a.consultantId, a.weekStart) = k
    · rw [if_pos hk.symm, if_pos (by simpa using hk)]
      cases h : lookupCell m k <;> simp [h]
    · rw [if_neg (fun hh => hk hh.symm), if_neg (by simpa using hk)]

theorem lookupCell_weekRow_mem (cid : String) (weeks : List Int) (w : Int)
    (hw : w ∈ weeks) :
    lookupCell (weeks.map (fun w => ((cid, w), (⟨0, 0, []⟩ : Cell)))) (cid, w) =
      some ⟨0, 0, []⟩ := by
  induction weeks with
  | nil => cases hw
  | cons w0 ws ih =>
    rw [List.map_cons, lookupCell_cons]
    by_cases h : ((cid, w0) : String × Int) = (cid, w)
    · rw [if_pos h]
    · rw [if_neg h]
      have hmem : w ∈ ws := by
        rcases List.mem_cons.mp hw with h1 | h1
        · exact absurd (by simp [h1]) h
        · exact h1
      exact ih hmem

theorem lookupCell_weekRow_zero (cid : String) (weeks : List Int) (k : String × Int)
    (cell : Cell)
    (h : lookupCell (weeks.map (fun w => ((cid, w), (⟨0, 0, []⟩ : Cell)))) k =
      some cell) :
    cell = ⟨0, 0, []⟩ := by
  induction weeks with
  | nil => simp [lookupCell_nil] at h
  | cons w0 ws ih =>
    rw [List.map_cons, lookupCell_cons] at h
    split_ifs at h with h0
    · exact (Option.some.inj h).symm
    · exact ih h

theorem lookupCell_initCells (consultants : List Consultant) (weeks : List Int)
    (c : Consultant) (hc : c ∈ consultants) (w : Int) (hw : w ∈ weeks) :
    lookupCell (initCells consultants weeks) (c.id, w) = some ⟨0, 0, []⟩ := by
  induction consultants with
  | nil => cases hc
  | cons c0 cs ih =>
    unfold initCells
    rw [List.flatMap_cons, lookupCell_append]
    rcases List.mem_cons.mp hc with h1 | h1
    · subst h1
      rw [lookupCell_weekRow_mem c.id weeks w hw]
    · cases hp : lookupCell (weeks.map (fun w => ((c0.id, w), (⟨0, 0, []⟩ : Cell))))
        (c.id, w) with
      | some cell =>
        simp only [hp]
        rw [lookupCell_weekRow_zero c0.id weeks _ cell hp]
      | none =>
        simp only [hp]
        exact ih h1

theorem foldl_addToCell (rows : Store) :
    ∀ (v : Cell),
      rows.foldl addToCell v =
        ⟨v.actual + ((rows.filter
            (fun a => decide (a.entryType = .ACTUAL))).map (fun a => a.hours)).sum,
         v.projected + ((rows.filter
            (fun a => decide (a.entryType = .PROJECTED))).map (fun a => a.hours)).sum,
         v.details ++ rows.map toDetail⟩ := by
  induction rows with
  | nil =>
    intro v
    cases v
    simp
  | cons a rows ih =>
    intro v
    rw [List.foldl_cons, ih]
    cases het : a.entryType
    · simp only [addToCell, het, List.filter_cons, List.map_cons]
      simp [het]
      ring
    · simp only [addToCell, het, List.filter_cons, List.map_cons]
      simp [het]
      ring

theorem rowsFor_eq (rows : Store) (cid : String) (w : Int) :
    rowsFor rows cid w =
      rows.filter (fun a => decide ((a.consultantId, a.weekStart) = (cid, w))) := by
  unfold rowsFor
  apply List.filter_congr
  intro a _
  simp [Prod.ext_iff]

theorem sumHours_eq_filtered (rows : Store) (cid : String) (w : Int)
    (et : AllocationEntryType) :
    sumHours rows cid w et =
      (((rows.filter (fun a => decide ((a.consultantId, a.weekStart) = (cid, w)))).filter
        (fun a => decide (a.entryType = et))).map (fun a => a.hours)).sum := by
  unfold sumHours
  rw [List.filter_filter]
  congr 1
  congr 1
  apply List.filter_congr
  intro a _
  rw [← Bool.decide_and, decide_eq_decide, Prod.mk.injEq]
  tauto

/-- C6 amended: the grid is dense — for every consultant of the table and
every week start of the queried range the cell exists — and a cell's actual
(resp. projected) value is the sum of hours over the ACTUAL (resp.
PROJECTED) rows *fetched by the range query*, i.e. the rows for that
consultant and week whose stored weekStart lies within [startD, endD]; the
details list itemizes exactly those fetched rows.  (Equivalently, the claim
as stated holds whenever startD is itself Sunday-aligned.) -/
theorem C6_amended_grid_dense_sums
    (consultants : List Consultant) (s : Store) (startD endD : Int)
    (c : Consultant) (hc : c ∈ consultants) (w : Int)
    (hw : w ∈ (getUtilizationData consultants s startD endD).weeks) :
    lookupCell (getUtilizationData consultants s startD endD).cells (c.id, w) =
      some ⟨sumHours (fetchAllocations s startD endD) c.id w .ACTUAL,
            sumHours (fetchAllocations s startD endD) c.id w .PROJECTED,
            (rowsFor (fetchAllocations s startD endD) c.id w).map toDetail⟩ := by
  have hw' : w ∈ getWeeksInRange startD endD := hw
  unfold getUtilizationData
  rw [lookupCell_foldl, lookupCell_initCells consultants _ c hc w hw']
  rw [Option.map_some']
  rw [foldl_addToCell]
  rw [sumHours_eq_filtered, sumHours_eq_filtered, rowsFor_eq]
  simp

/-- C6 counterexample: for the explicit range [3, 10] (a Wednesday through
the next Wednesday) the grid has a week-0 column, but the range fetch
(weekStart between 3 and 10) excludes the stored week-0 row, so the cell
reads 0 while the store's ACTUAL rows for that consultant and week sum
to 5 — the claim's sum-over-store-rows equation fails. -/
theorem C6_counterexample :
    (0 : Int) ∈ (getUtilizationData exConsultants exStoreC6 3 10).weeks ∧
    lookupCell (getUtilizationData exConsultants exStoreC6 3 10).cells ("c1", 0) =
      some ⟨0, 0, []⟩ ∧
    sumHours exStoreC6 "c1" 0 .ACTUAL = 5 ∧
    ((0 : ℚ) = 5 → False) := by
  refine ⟨by decide, by rfl, by simp [sumHours, exStoreC6], by norm_num⟩

/-- C6 witness: the amended theorem at the concrete range [3, 10]. -/
theorem C6_amended_grid_dense_sums_witness :
    (⟨"c1", "Jane", 40⟩ : Consultant) ∈ exConsultants ∧
    (0 : Int) ∈ (getUtilizationData exConsultants exStoreC6 3 10).weeks ∧
    lookupCell (getUtilizationData exConsultants exStoreC6 3 10).cells ("c1", 0) =
      some ⟨sumHours (fetchAllocations exStoreC6 3 10) "c1" 0 .ACTUAL,
            sumHours (fetchAllocations exStoreC6 3 10) "c1" 0 .PROJECTED,
            (rowsFor (fetchAllocations exStoreC6 3 10) "c1" 0).map toDetail⟩ := by
  refine ⟨List.mem_singleton.mpr rfl, by decide, ?_⟩
  exact C6_amended_grid_dense_sums exConsultants exStoreC6 3 10 ⟨"c1", "Jane", 40⟩
    (List.mem_singleton.mpr rfl) 0 (by decide)

theorem weeks_nodup (s e : Int) : (getWeeksInRange s e).Nodup :=
  List.Pairwise.imp (fun h => ne_of_lt h) (getWeeksInRange_pairwise s e)

theorem businessDayCount_pos {lo hi : Int} (h : 0 < businessDayCount lo hi) :
    lo ≤ hi := by
  by_contra hlt
  push_neg at hlt
  unfold businessDayCount at h
  have hz : (hi - lo + 1).toNat = 0 := by omega
  rw [hz] at h
  simp at h

theorem ptoWeekHours_pos_overlap (pto : PTORequest) (hpd : ℚ) (w : Int)
    (h : 0 < ptoWeekHours pto hpd w) :
    w ≤ pto.endDate ∧ pto.startDate ≤ w + 6 := by
  unfold ptoWeekHours at h
  have hb : 0 < businessDayCount (max w pto.startDate) (min (w + 6) pto.endDate) := by
    by_contra hzero
    push_neg at hzero
    have hz : businessDayCount (max w pto.startDate) (min (w + 6) pto.endDate) = 0 :=
      Nat.le_zero.mp hzero
    rw [hz] at h
    simp at h
  have hle := businessDayCount_pos hb
  constructor
  · calc w ≤ max w pto.startDate := le_max_left _ _
      _ ≤ min (w + 6) pto.endDate := hle
      _ ≤ pto.endDate := min_le_right _ _
  · calc pto.startDate ≤ max w pto.startDate := le_max_right _ _
      _ ≤ min (w + 6) pto.endDate := hle
      _ ≤ w + 6 := min_le_left _ _

theorem findUnique_append_single_ne (s : Store) (row : Allocation) (k : AllocKey)
    (h : row.key ≠ k) : findUnique (s ++ [row]) k = findUnique s k := by
  rw [findUnique_append]
  cases hf2 : findUnique s k with
  | some b => rfl
  | none => simp [findUnique_cons, h, findUnique_nil]

/-- A week not processed (or contributing no hours) leaves its key untouched
by the PTO upsert loop. -/
theorem ptoWeeksLoop_other (pto : PTORequest) (pid : String) (hpd : ℚ) (uid : String) :
    ∀ (ws : List Int) (s : Store) (w : Int),
      (∀ w' ∈ ws, getWeekStart w' = w') →
      (w ∉ ws ∨ ¬(0 < ptoWeekHours pto hpd w)) →
      findUnique (ptoWeeksLoop pto pid hpd uid ws s)
          (pto.consultantId, pid, w, .ACTUAL) =
        findUnique s (pto.consultantId, pid, w, .ACTUAL) := by
  intro ws
  induction ws with
  | nil =>
    intro s w _ _
    rfl
  | cons w0 rest ih =>
    intro s w halign hcase
    have halign0 : getWeekStart w0 = w0 := halign w0 (List.mem_cons_self _ _)
    have halignrest : ∀ w' ∈ rest, getWeekStart w' = w' :=
      fun w' hw' => halign w' (List.mem_cons_of_mem _ hw')
    have hrestcase : w ∉ rest ∨ ¬(0 < ptoWeekHours pto hpd w) := by
      rcases hcase with hnm | hnp
      · exact Or.inl (fun hh => hnm (List.mem_cons_of_mem _ hh))
      · exact Or.inr hnp
    by_cases hpos : 0 < ptoWeekHours pto hpd w0
    · have hw0w : w0 ≠ w := by
        rcases hcase with hnm | hnp
        · exact fun hh => hnm (hh ▸ List.mem_cons_self _ _)
        · exact fun hh => hnp (hh ▸ hpos)
      have hkey : ((pto.consultantId, pid, w, AllocationEntryType.ACTUAL) : AllocKey) ≠
          (pto.consultantId, pid, getWeekStart w0, AllocationEntryType.ACTUAL) := by
        rw [halign0]
        intro hh
        simp at hh
        exact hw0w hh.symm
      cases hf : findUnique s (pto.consultantId, pid, getWeekStart w0, .ACTUAL) with
      | some a =>
        simp only [ptoWeeksLoop, if_pos hpos, hf]
        rw [ih _ w halignrest hrestcase]
        rw [findUnique_map_upd s _ _ (fun x => key_add_hours x (ptoWeekHours pto hpd w0)) _,
          if_neg hkey]
      | none =>
        simp only [ptoWeeksLoop, if_pos hpos, hf]
        rw [ih _ w halignrest hrestcase]
        refine findUnique_append_single_ne s _ _ ?_
        intro hh
        exact hkey hh.symm
    · simp only [ptoWeeksLoop, if_neg hpos]
      exact ih _ w halignrest hrestcase

/-- A processed week with positive contribution ends with its key
incremented (when the row existed) or freshly created (when it did not). -/
theorem ptoWeeksLoop_mem (pto : PTORequest) (pid : String) (hpd : ℚ) (uid : String) :
    ∀ (ws : List Int) (s : Store) (w : Int),
      (∀ w' ∈ ws, getWeekStart w' = w') → ws.Nodup →
      w ∈ ws → 0 < ptoWeekHours pto hpd w →
      findUnique (ptoWeeksLoop pto pid hpd uid ws s)
          (pto.consultantId, pid, w, .ACTUAL) =
        (match findUnique s (pto.consultantId, pid, w, .ACTUAL) with
         | some a => some { a with hours := a.hours + ptoWeekHours pto hpd w }
         | none => some { consultantId := pto.consultantId, projectId := pid,
                          weekStart := w, hours := ptoWeekHours pto hpd w,
                          entryType := .ACTUAL, notes := some (ptoNote pto),
                          createdById := some uid }) := by
  intro ws
  induction ws with
  | nil =>
    intro s w _ _ hmem
    cases hmem
  | cons w0 rest ih =>
    intro s w halign hnodup hmem hpos
    have halign0 : getWeekStart w0 = w0 := halign w0 (List.mem_cons_self _ _)
    have halignrest : ∀ w' ∈ rest, getWeekStart w' = w' :=
      fun w' hw' => halign w' (List.mem_cons_of_mem _ hw')
    rcases List.mem_cons.mp hmem with hw | hw
    · subst hw
      have hw0rest : w ∉ rest := (List.nodup_cons.mp hnodup).1
      cases hf : findUnique s (pto.consultantId, pid, w, .ACTUAL) with
      | some a =>
        simp only [ptoWeeksLoop, if_pos hpos, halign0, hf]
        rw [ptoWeeksLoop_other pto pid hpd uid rest _ w halignrest (Or.inl hw0rest)]
        rw [findUnique_map_upd s _ _ (fun x => key_add_hours x (ptoWeekHours pto hpd w)) _,
          if_pos rfl, hf]
        rfl
      | none =>
        simp only [ptoWeeksLoop, if_pos hpos, halign0, hf]
        rw [ptoWeeksLoop_other pto pid hpd uid rest _ w halignrest (Or.inl hw0rest)]
        rw [findUnique_append, hf]
        simp [findUnique_cons, Allocation.key]
    · have hw0w : w0 ≠ w := by
        intro hh
        exact (List.nodup_cons.mp hnodup).1 (hh ▸ hw)
      have hkey : ((pto.consultantId, pid, w, AllocationEntryType.ACTUAL) : AllocKey) ≠
          (pto.consultantId, pid, getWeekStart w0, AllocationEntryType.ACTUAL) := by
        rw [halign0]
        intro hh
        simp at hh
        exact hw0w hh.symm
      have hrest := (List.nodup_cons.mp hnodup).2
      by_cases hpos0 : 0 < ptoWeekHours pto hpd w0
      · cases hf : findUnique s (pto.consultantId, pid, getWeekStart w0, .ACTUAL) with
        | some a =>
          simp only [ptoWeeksLoop, if_pos hpos0, hf]
          rw [ih _ w halignrest hrest hw hpos]
          rw [findUnique_map_upd s _ _ (fun x => key_add_hours x (ptoWeekHours pto hpd w0)) _,
            if_neg hkey]
        | none =>
          simp only [ptoWeeksLoop, if_pos hpos0, hf]
          rw [ih _ w halignrest hrest hw hpos]
          have happ := findUnique_append_single_ne s
            { consultantId := pto.consultantId, projectId := pid,
              weekStart := getWeekStart w0, hours := ptoWeekHours pto hpd w0,
              entryType := .ACTUAL, notes := some (ptoNote pto),
              createdById := some uid }
            (pto.consultantId, pid, w, .ACTUAL) (fun hh => hkey hh.symm)
          rw [happ]
      · simp only [ptoWeeksLoop, if_neg hpos0]
        exact ih _ w halignrest hrest hw hpos

/-- C2: on the approval happy path, hours-per-day is 8 for all-day requests
and otherwise derived from the clock times; each week's contribution is the
business-day count of the intersection of the week span with the request
span times hours-per-day; every Sunday-aligned week with a positive
contribution overlaps the request span and has its (consultant, PTO project,
week, ACTUAL) row additively upserted — incremented when present, created
with the descriptive note when absent — and weeks with zero contribution are
left untouched. -/
theorem C2_approvePTO_reconciliation
    (reqs : List PTORequest) (projects : List Project) (session : SessionUser)
    (s : Store) (fid id : String) (pto : PTORequest)
    (hreq : findReq reqs id = some pto) (hst : pto.status = .PENDING)
    (hrole : session.role = .ADMIN ∨ session.role = .MANAGER)
    (hdates : pto.startDate ≤ pto.endDate) :
    (approvePTORequest reqs projects session s fid id = .ok
      { projects :=
          if (projects.find? (fun p => p.timecode == "INT-PTO-001")).isSome
          then projects else projects ++ [resolvePTOProject projects fid],
        store := ptoWeeksLoop pto (resolvePTOProject projects fid).id
          (hoursPerDayOf pto) session.id
          (getWeeksInRange pto.startDate pto.endDate) s,
        requests := reqs.map (fun r =>
          if r.id = id
          then { pto with status := .APPROVED, approvedById := some session.id }
          else r),
        updated := { pto with
                     status := .APPROVED,
                     approvedById := some session.id } }) ∧
    (pto.allDay = true → hoursPerDayOf pto = 8) ∧
    (∀ sh sm eh em : Int, pto.allDay = false → pto.startTime = some (sh, sm) →
      pto.endTime = some (eh, em) →
      hoursPerDayOf pto = ((eh : ℚ) - (sh : ℚ)) + ((em : ℚ) - (sm : ℚ)) / 60) ∧
    (∀ w : Int, ptoWeekHours pto (hoursPerDayOf pto) w =
      (businessDayCount (max w pto.startDate) (min (w + 6) pto.endDate) : ℚ) *
        hoursPerDayOf pto) ∧
    (∀ w : Int, getWeekStart w = w →
      (0 < ptoWeekHours pto (hoursPerDayOf pto) w →
        (w ≤ pto.endDate ∧ pto.startDate ≤ w + 6) ∧
        findUnique
          (ptoWeeksLoop pto (resolvePTOProject projects fid).id (hoursPerDayOf pto)
            session.id (getWeeksInRange pto.startDate pto.endDate) s)
          (pto.consultantId, (resolvePTOProject projects fid).id, w, .ACTUAL) =
        (match findUnique s
            (pto.consultantId, (resolvePTOProject projects fid).id, w, .ACTUAL) with
         | some a =>
             some { a with hours := a.hours + ptoWeekHours pto (hoursPerDayOf pto) w }
         | none =>
             some { consultantId := pto.consultantId,
                    projectId := (resolvePTOProject projects fid).id, weekStart := w,
                    hours := ptoWeekHours pto (hoursPerDayOf pto) w,
                    entryType := .ACTUAL, notes := some (ptoNote pto),
                    createdById := some session.id })) ∧
      (ptoWeekHours pto (hoursPerDayOf pto) w = 0 →
        findUnique
          (ptoWeeksLoop pto (resolvePTOProject projects fid).id (hoursPerDayOf pto)
            session.id (getWeeksInRange pto.startDate pto.endDate) s)
          (pto.consultantId, (resolvePTOProject projects fid).id, w, .ACTUAL) =
          findUnique s
            (pto.consultantId, (resolvePTOProject projects fid).id, w, .ACTUAL))) := by
  refine ⟨?_, ?_, ?_, fun w => rfl, ?_⟩
  · unfold approvePTORequest
    rw [if_neg (not_not_intro hrole)]
    simp only [hreq]
    rw [if_neg (fun hc => hc hst)]
  · intro h8
    simp [hoursPerDayOf, h8]
  · intro sh sm eh em hall hstt hett
    simp [hoursPerDayOf, hall, hstt, hett]
  · intro w halignw
    constructor
    · intro hpos
      have hov := ptoWeekHours_pos_overlap pto _ w hpos
      refine ⟨hov, ?_⟩
      apply ptoWeeksLoop_mem
      · exact fun w' hw' => getWeekStart_weeksInRange hw'
      · exact weeks_nodup _ _
      · exact (mem_getWeeksInRange hdates w).mpr ⟨halignw, hov.2, hov.1⟩
      · exact hpos
    · intro hz
      apply ptoWeeksLoop_other
      · exact fun w' hw' => getWeekStart_weeksInRange hw'
      · refine Or.inr ?_
        rw [hz]
        norm_num

/-- C2 witness: approving an all-day Monday-to-Friday request (days 1..5)
against an empty store creates one 5-business-day ACTUAL row on the PTO
project for the Sunday (day 0) of that week. -/
theorem C2_approvePTO_reconciliation_witness :
    findReq [exPTOPending] "r2" = some exPTOPending ∧
    exPTOPending.status = .PENDING ∧
    (adminSession.role = .ADMIN ∨ adminSession.role = .MANAGER) ∧
    exPTOPending.startDate ≤ exPTOPending.endDate ∧
    0 < ptoWeekHours exPTOPending (hoursPerDayOf exPTOPending) 0 ∧
    approvePTORequest [exPTOPending] [] adminSession [] "pp" "r2" = .ok
      { projects :=
          if (([] : List Project).find? (fun p => p.timecode == "INT-PTO-001")).isSome
          then ([] : List Project) else [] ++ [resolvePTOProject [] "pp"],
        store := ptoWeeksLoop exPTOPending (resolvePTOProject [] "pp").id
          (hoursPerDayOf exPTOPending) adminSession.id
          (getWeeksInRange exPTOPending.startDate exPTOPending.endDate) [],
        requests := [exPTOPending].map (fun r =>
          if r.id = "r2"
          then { exPTOPending with
                 status := .APPROVED,
                 approvedById := some adminSession.id }
          else r),
        updated := { exPTOPending with
                     status := .APPROVED,
                     approvedById := some adminSession.id } } ∧
    findUnique
      (ptoWeeksLoop exPTOPending (resolvePTOProject [] "pp").id
        (hoursPerDayOf exPTOPending) adminSession.id
        (getWeeksInRange exPTOPending.startDate exPTOPending.endDate) [])
      (exPTOPending.consultantId, (resolvePTOProject [] "pp").id, 0, .ACTUAL) =
      some { consultantId := exPTOPending.consultantId,
             projectId := (resolvePTOProject [] "pp").id, weekStart := 0,
             hours := ptoWeekHours exPTOPending (hoursPerDayOf exPTOPending) 0,
             entryType := .ACTUAL, notes := some (ptoNote exPTOPending),
             createdById := some adminSession.id } := by
  have hpos : 0 < ptoWeekHours exPTOPending (hoursPerDayOf exPTOPending) 0 := by
    have hb : businessDayCount (max (0 : Int) exPTOPending.startDate)
        (min ((0 : Int) + 6) exPTOPending.endDate) = 5 := by decide
    unfold ptoWeekHours
    rw [hb]
    have h8 : hoursPerDayOf exPTOPending = 8 := rfl
    rw [h8]
    norm_num
  have H := C2_approvePTO_reconciliation [exPTOPending] [] adminSession [] "pp" "r2"
    exPTOPending rfl rfl (Or.inl rfl) (by decide)
  refine ⟨rfl, rfl, Or.inl rfl, by decide, hpos, H.1, ?_⟩
  exact ((H.2.2.2.2 0 (by decide)).1 hpos).2

theorem findUnique_append_none (s t : Store) (k : AllocKey)
    (hs : findUnique s k = none) (ht : ∀ row ∈ t, row.key ≠ k) :
    findUnique (s ++ t) k = none := by
  rw [findUnique_append, hs]
  exact findUnique_eq_none.mpr ht

theorem map_getWeekStart_self {l : List Int} (h : ∀ x ∈ l, getWeekStart x = x) :
    l.map getWeekStart = l := by
  have := List.map_congr_left (g := id) h
  simpa using this

theorem weeksMap_nodup (s e : Int) :
    ((getWeeksInRange s e).map getWeekStart).Nodup := by
  rw [map_getWeekStart_self (fun x hx => getWeekStart_weeksInRange hx)]
  exact weeks_nodup s e

/-- Fresh run of the mass-load week loop: with every key absent, it appends
one created row per week and counts them all as created. -/
theorem massLoadWeeks_fresh (cid pid : String) (hours : ℚ) (et : AllocationEntryType)
    (notes : Option String) (uid : String) :
    ∀ (ws : List Int) (st : Store) (r : MassLoadResult),
      (ws.map getWeekStart).Nodup →
      (∀ w ∈ ws, findUnique st (cid, pid, getWeekStart w, et) = none) →
      massLoadWeeks cid pid hours et notes uid ws (st, r) =
        (st ++ ws.map (mlRow cid pid hours et notes uid),
         { r with created := r.created + ws.length }) := by
  intro ws
  induction ws with
  | nil =>
    intro st r _ _
    simp [massLoadWeeks]
  | cons w0 rest ih =>
    intro st r hnodup hfresh
    have hf0 : findUnique st (cid, pid, getWeekStart w0, et) = none :=
      hfresh w0 (List.mem_cons_self _ _)
    rw [List.map_cons] at hnodup
    have hnodup' := (List.nodup_cons.mp hnodup).2
    have hw0notin : getWeekStart w0 ∉ rest.map getWeekStart :=
      (List.nodup_cons.mp hnodup).1
    simp only [massLoadWeeks, hf0]
    rw [ih (st ++ [mlRow cid pid hours et notes uid w0]) _ hnodup' ?_]
    · rw [List.append_assoc]
      simp [mlRow]
      omega
    · intro w hw
      refine findUnique_append_none st _ _ (hfresh w (List.mem_cons_of_mem _ hw)) ?_
      intro row hrow
      rw [List.mem_singleton] at hrow
      subst hrow
      intro hk
      refine hw0notin ?_
      have : getWeekStart w0 = getWeekStart w := by
        have := congrArg (fun k : AllocKey => k.2.2.1) hk
        simpa [mlRow, Allocation.key] using this
      rw [this]
      exact List.mem_map.mpr ⟨w, hw, rfl⟩

/-- The mass-load week loop leaves keys it does not process untouched. -/
theorem massLoadWeeks_preserve (cid pid : String) (hours : ℚ) (et : AllocationEntryType)
    (notes : Option String) (uid : String) :
    ∀ (ws : List Int) (st : Store) (r : MassLoadResult) (k' : AllocKey),
      (∀ w ∈ ws, k' ≠ (cid, pid, getWeekStart w, et)) →
      findUnique (massLoadWeeks cid pid hours et notes uid ws (st, r)).1 k' =
        findUnique st k' := by
  intro ws
  induction ws with
  | nil =>
    intro st r k' _
    rfl
  | cons w0 rest ih =>
    intro st r k' hne
    have hne0 : k' ≠ (cid, pid, getWeekStart w0, et) := hne w0 (List.mem_cons_self _ _)
    have hnerest : ∀ w ∈ rest, k' ≠ (cid, pid, getWeekStart w, et) :=
      fun w hw => hne w (List.mem_cons_of_mem _ hw)
    cases hf : findUnique st (cid, pid, getWeekStart w0, et) with
    | some e =>
      simp only [massLoadWeeks, hf]
      rw [ih _ _ _ hnerest]
      rw [findUnique_map_upd st _ _
        (fun x => key_set_hours x hours (jsOrStr notes e.notes)) _, if_neg hne0]
    | none =>
      simp only [massLoadWeeks, hf]
      rw [ih _ _ _ hnerest]
      refine findUnique_append_single_ne st _ _ ?_
      intro hh
      exact hne0 hh.symm

/-- Rerun bookkeeping: with every key present, the week loop counts every
week as updated. -/
theorem massLoadWeeks_rerun_count (cid pid : String) (hours : ℚ)
    (et : AllocationEntryType) (notes : Option String) (uid : String) :
    ∀ (ws : List Int) (st : Store) (r : MassLoadResult),
      (∀ w ∈ ws, (findUnique st (cid, pid, getWeekStart w, et)).isSome) →
      (massLoadWeeks cid pid hours et notes uid ws (st, r)).2 =
        { r with updated := r.updated + ws.length } := by
  intro ws
  induction ws with
  | nil =>
    intro st r _
    rfl
  | cons w0 rest ih =>
    intro st r hsome
    cases hf : findUnique st (cid, pid, getWeekStart w0, et) with
    | none =>
      exact absurd (hf ▸ hsome w0 (List.mem_cons_self _ _)) (by simp)
    | some e =>
      simp only [massLoadWeeks, hf]
      rw [ih _ _ ?_]
      · simp
        omega
      · intro w hw
        rw [findUnique_map_upd st _ _
          (fun x => key_set_hours x hours (jsOrStr notes e.notes)) _]
        by_cases hk : ((cid, pid, getWeekStart w, et) : AllocKey) =
            (cid, pid, getWeekStart w0, et)
        · rw [if_pos hk, hf]
          simp
        · rw [if_neg hk]
          exact hsome w (List.mem_cons_of_mem _ hw)

/-- Rerun content: a present key ends with its hours overwritten to the
target and its notes given by the JavaScript or-fallback. -/
theorem massLoadWeeks_rerun_lookup (cid pid : String) (hours : ℚ)
    (et : AllocationEntryType) (notes : Option String) (uid : String) :
    ∀ (ws : List Int) (st : Store) (r : MassLoadResult),
      (ws.map getWeekStart).Nodup →
      (∀ w ∈ ws, (findUnique st (cid, pid, getWeekStart w, et)).isSome) →
      ∀ w ∈ ws, ∀ a, findUnique st (cid, pid, getWeekStart w, et) = some a →
        findUnique (massLoadWeeks cid pid hours et notes uid ws (st, r)).1
            (cid, pid, getWeekStart w, et) =
          some { a with hours := hours, notes := jsOrStr notes a.notes } := by
  intro ws
  induction ws with
  | nil =>
    intro st r _ _ w hw
    cases hw
  | cons w0 rest ih =>
    intro st r hnodup hsome w hw a ha
    rw [List.map_cons] at hnodup
    have hnodup' := (List.nodup_cons.mp hnodup).2
    have hw0notin : getWeekStart w0 ∉ rest.map getWeekStart :=
      (List.nodup_cons.mp hnodup).1
    cases hf : findUnique st (cid, pid, getWeekStart w0, et) with
    | none =>
      exact absurd (hf ▸ hsome w0 (List.mem_cons_self _ _)) (by simp)
    | some e =>
      simp only [massLoadWeeks, hf]
      rcases List.mem_cons.mp hw with hww | hww
      · subst hww
        rw [massLoadWeeks_preserve cid pid hours et notes uid rest _ _ _ ?_]
        · rw [findUnique_map_upd st _ _
            (fun x => key_set_hours x hours (jsOrStr notes e.notes)) _,
            if_pos rfl, hf]
          rw [ha] at hf
          rw [(Option.some.inj hf)]
          rfl
        · intro w' hw'
          intro hk
          refine hw0notin ?_
          have : getWeekStart w = getWeekStart w' := by
            have := congrArg (fun k : AllocKey => k.2.2.1) hk
            simpa using this
          rw [this]
          exact List.mem_map.mpr ⟨w', hw', rfl⟩
      · have hkne : ((cid, pid, getWeekStart w, et) : AllocKey) ≠
            (cid, pid, getWeekStart w0, et) := by
          intro hk
          have h2 : getWeekStart w = getWeekStart w0 := by
            have := congrArg (fun k : AllocKey => k.2.2.1) hk
            simpa using this
          exact hw0notin (h2 ▸ List.mem_map.mpr ⟨w, hww, rfl⟩)
        refine ih _ _ hnodup' ?_ w hww a ?_
        · intro w' hw'
          rw [findUnique_map_upd st _ _
            (fun x => key_set_hours x hours (jsOrStr notes e.notes)) _]
          by_cases hk : ((cid, pid, getWeekStart w', et) : AllocKey) =
              (cid, pid, getWeekStart w0, et)
          · rw [if_pos hk, hf]
            simp
          · rw [if_neg hk]
            exact hsome w' (List.mem_cons_of_mem _ hw')
        · rw [findUnique_map_upd st _ _
            (fun x => key_set_hours x hours (jsOrStr notes e.notes)) _, if_neg hkne]
          exact ha

/-- Fresh run of the consultant loop: all keys absent, all consultants
present — every (consultant, week) pair appends a created row. -/
theorem massLoadConsultants_fresh (ct : List Consultant) (pid : String) (hours : ℚ)
    (et : AllocationEntryType) (notes : Option String) (uid : String)
    (weeks : List Int) (hwn : (weeks.map getWeekStart).Nodup) :
    ∀ (ids : List String) (st : Store) (r : MassLoadResult),
      ids.Nodup →
      (∀ cid ∈ ids, (ct.find? (fun c => c.id == cid)).isSome) →
      (∀ cid ∈ ids, ∀ w ∈ weeks,
        findUnique st (cid, pid, getWeekStart w, et) = none) →
      massLoadConsultants ct pid hours et notes uid weeks ids (st, r) =
        (st ++ ids.flatMap (fun cid => weeks.map (mlRow cid pid hours et notes uid)),
         { r with created := r.created + ids.length * weeks.length }) := by
  intro ids
  induction ids with
  | nil =>
    intro st r _ _ _
    simp [massLoadConsultants]
  | cons cid rest ih =>
    intro st r hnodup hex hfresh
    cases hc : ct.find? (fun c => c.id == cid) with
    | none =>
      exact absurd (hc ▸ hex cid (List.mem_cons_self _ _)) (by simp)
    | some c =>
      simp only [massLoadConsultants, hc]
      rw [massLoadWeeks_fresh cid pid hours et notes uid weeks st r hwn
        (hfresh cid (List.mem_cons_self _ _))]
      rw [ih _ _ (List.nodup_cons.mp hnodup).2
        (fun cid' h' => hex cid' (List.mem_cons_of_mem _ h')) ?_]
      · rw [List.flatMap_cons, ← List.append_assoc]
        congr 1
        simp only [List.length_cons]
        congr 1
        ring
      · intro cid' h' w hw
        refine findUnique_append_none st _ _
          (hfresh cid' (List.mem_cons_of_mem _ h') w hw) ?_
        intro row hrow
        obtain ⟨w', _, rfl⟩ := List.mem_map.mp hrow
        intro hk
        have hcc : cid = cid' := by
          have := congrArg (fun k : AllocKey => k.1) hk
          simpa [mlRow, Allocation.key] using this
        exact (List.nodup_cons.mp hnodup).1 (hcc ▸ h')

/-- The consultant loop leaves keys of consultants outside the request
untouched. -/
theorem massLoadConsultants_preserve (ct : List Consultant) (pid : String)
    (hours : ℚ) (et : AllocationEntryType) (notes : Option String) (uid : String)
    (weeks : List Int) :
    ∀ (ids : List String) (st : Store) (r : MassLoadResult) (k' : AllocKey),
      (∀ cid ∈ ids, ∀ w ∈ weeks, k' ≠ (cid, pid, getWeekStart w, et)) →
      findUnique (massLoadConsultants ct pid hours et notes uid weeks ids (st, r)).1 k' =
        findUnique st k' := by
  intro ids
  induction ids with
  | nil =>
    intro st r k' _
    rfl
  | cons cid rest ih =>
    intro st r k' hne
    cases hc : ct.find? (fun c => c.id == cid) with
    | none =>
      simp only [massLoadConsultants, hc]
      exact ih _ _ _ (fun cid' h' w hw => hne cid' (List.mem_cons_of_mem _ h') w hw)
    | some c =>
      simp only [massLoadConsultants, hc]
      have hp := massLoadWeeks_preserve cid pid hours et notes uid weeks st r k'
        (fun w hw => hne cid (List.mem_cons_self _ _) w hw)
      rcases hw : massLoadWeeks cid pid hours et notes uid weeks (st, r) with ⟨st2, r2⟩
      rw [hw] at hp
      rw [ih st2 r2 k' (fun cid' h' w hw' => hne cid' (List.mem_cons_of_mem _ h') w hw')]
      exact hp

theorem key_ne_of_cid_ne {cid cid' pid : String} {w w' : Int}
    {et : AllocationEntryType} (h : cid ≠ cid') :
    ((cid, pid, getWeekStart w, et) : AllocKey) ≠ (cid', pid, getWeekStart w', et) := by
  intro hk
  exact h (congrArg (fun k : AllocKey => k.1) hk)

/-- Rerun of the consultant loop: with every key present, everything is
counted as updated and every key ends with its hours overwritten and notes
given by the or-fallback. -/
theorem massLoadConsultants_rerun (ct : List Consultant) (pid : String) (hours : ℚ)
    (et : AllocationEntryType) (notes : Option String) (uid : String)
    (weeks : List Int) (hwn : (weeks.map getWeekStart).Nodup) :
    ∀ (ids : List String) (st : Store) (r : MassLoadResult),
      ids.Nodup →
      (∀ cid ∈ ids, (ct.find? (fun c => c.id == cid)).isSome) →
      (∀ cid ∈ ids, ∀ w ∈ weeks,
        (findUnique st (cid, pid, getWeekStart w, et)).isSome) →
      (massLoadConsultants ct pid hours et notes uid weeks ids (st, r)).2 =
        { r with updated := r.updated + ids.length * weeks.length } ∧
      (∀ cid ∈ ids, ∀ w ∈ weeks, ∀ a,
        findUnique st (cid, pid, getWeekStart w, et) = some a →
        findUnique (massLoadConsultants ct pid hours et notes uid weeks ids (st, r)).1
            (cid, pid, getWeekStart w, et) =
          some { a with hours := hours, notes := jsOrStr notes a.notes }) := by
  intro ids
  induction ids with
  | nil =>
    intro st r _ _ _
    refine ⟨by simp [massLoadConsultants], ?_⟩
    intro cid hcid
    cases hcid
  | cons cid rest ih =>
    intro st r hnodup hex hsome
    have hcidrest : cid ∉ rest := (List.nodup_cons.mp hnodup).1
    cases hc : ct.find? (fun c => c.id == cid) with
    | none =>
      exact absurd (hc ▸ hex cid (List.mem_cons_self _ _)) (by simp)
    | some c =>
      simp only [massLoadConsultants, hc]
      have hcount := massLoadWeeks_rerun_count cid pid hours et notes uid weeks st r
        (fun w hw => hsome cid (List.mem_cons_self _ _) w hw)
      have hself := massLoadWeeks_rerun_lookup cid pid hours et notes uid weeks st r
        hwn (fun w hw => hsome cid (List.mem_cons_self _ _) w hw)
      have hothers := fun (cid' : String) (h' : cid' ∈ rest) (w : Int) =>
        massLoadWeeks_preserve cid pid hours et notes uid weeks st r
          (cid', pid, getWeekStart w, et)
          (fun w' _ => key_ne_of_cid_ne (fun hh => hcidrest (hh ▸ h')))
      rcases hw : massLoadWeeks cid pid hours et notes uid weeks (st, r) with ⟨st2, r2⟩
      rw [hw] at hcount hself
      have hothers2 : ∀ cid' ∈ rest, ∀ w : Int,
          findUnique st2 (cid', pid, getWeekStart w, et) =
            findUnique st (cid', pid, getWeekStart w, et) := by
        intro cid' h' w
        have := hothers cid' h' w
        rw [hw] at this
        exact this
      have hrest := ih st2 r2 (List.nodup_cons.mp hnodup).2
        (fun cid' h' => hex cid' (List.mem_cons_of_mem _ h'))
        (fun cid' h' w hw' => by
          rw [hothers2 cid' h' w]
          exact hsome cid' (List.mem_cons_of_mem _ h') w hw')
      constructor
      · have hcount2 : r2 = { created := r.created,
                              updated := r.updated + weeks.length,
                              errors := r.errors } := hcount
        rw [hrest.1, hcount2]
        simp only [List.length_cons]
        congr 1
        ring
      · intro cid' hcid' w hw' a ha
        rcases List.mem_cons.mp hcid' with hcc | hcc
        · subst hcc
          rw [massLoadConsultants_preserve ct pid hours et notes uid weeks rest st2 r2
            (cid', pid, getWeekStart w, et)
            (fun cid2 h2 w2 _ => key_ne_of_cid_ne (fun hh => hcidrest (hh ▸ h2)))]
          exact hself w hw' a ha
        · refine hrest.2 cid' hcc w hw' a ?_
          rw [hothers2 cid' hcc w]
          exact ha

/-- Lookup of a created row among one consultant's created week rows. -/
theorem findUnique_weekRows (cid pid : String) (hours : ℚ) (et : AllocationEntryType)
    (notes : Option String) (uid : String) :
    ∀ (weeks : List Int), (weeks.map getWeekStart).Nodup →
      ∀ w ∈ weeks,
        findUnique (weeks.map (mlRow cid pid hours et notes uid))
            (cid, pid, getWeekStart w, et) =
          some (mlRow cid pid hours et notes uid w) := by
  intro weeks
  induction weeks with
  | nil =>
    intro _ w hw
    cases hw
  | cons w0 rest ih =>
    intro hnodup w hw
    rw [List.map_cons] at hnodup
    have hw0notin := (List.nodup_cons.mp hnodup).1
    rw [List.map_cons, findUnique_cons]
    rcases List.mem_cons.mp hw with hww | hww
    · subst hww
      rw [if_pos (show (mlRow cid pid hours et notes uid w).key =
        (cid, pid, getWeekStart w, et) from rfl)]
    · have hne : (mlRow cid pid hours et notes uid w0).key ≠
          (cid, pid, getWeekStart w, et) := by
        intro hk
        have h2 : getWeekStart w0 = getWeekStart w := by
          have := congrArg (fun k : AllocKey => k.2.2.1) hk
          simpa [mlRow, Allocation.key] using this
        exact hw0notin (h2 ▸ List.mem_map.mpr ⟨w, hww, rfl⟩)
      rw [if_neg hne]
      exact ih (List.nodup_cons.mp hnodup).2 w hww

/-- Lookup of a created row among all created rows of a fresh run. -/
theorem findUnique_consultantRows (pid : String) (hours : ℚ)
    (et : AllocationEntryType) (notes : Option String) (uid : String)
    (weeks : List Int) (hwn : (weeks.map getWeekStart).Nodup) :
    ∀ (ids : List String), ∀ cid ∈ ids, ∀ w ∈ weeks,
      findUnique (ids.flatMap (fun c => weeks.map (mlRow c pid hours et notes uid)))
          (cid, pid, getWeekStart w, et) =
        some (mlRow cid pid hours et notes uid w) := by
  intro ids
  induction ids with
  | nil =>
    intro cid hcid
    cases hcid
  | cons cid0 rest ih =>
    intro cid hcid w hw
    rw [List.flatMap_cons, findUnique_append]
    by_cases hcc : cid = cid0
    · subst hcc
      rw [findUnique_weekRows cid pid hours et notes uid weeks hwn w hw]
    · have hpre : findUnique (weeks.map (mlRow cid0 pid hours et notes uid))
          (cid, pid, getWeekStart w, et) = none := by
        refine findUnique_eq_none.mpr ?_
        intro row hrow
        obtain ⟨w', _, rfl⟩ := List.mem_map.mp hrow
        intro hk
        exact hcc ((congrArg (fun k : AllocKey => k.1) hk)).symm
      rw [hpre]
      rcases List.mem_cons.mp hcid with h1 | h1
      · exact absurd h1 hcc
      · exact ih cid h1 w hw

/-- C3: over existing consultants and a store with no pre-existing rows for
any expanded key, a mass load creates N×M rows (created = N·M, updated = 0,
no errors), and an identical re-run against the resulting store creates
nothing, updates all N×M rows (created = 0, updated = N·M, no errors), and
leaves every expanded key holding the target hours with notes given by the
JavaScript or-fallback to the existing notes. -/
theorem C3_massLoad_roundtrip
    (ct : List Consultant) (pt : List Project) (session : SessionUser) (s : Store)
    (d : MassLoadFormData)
    (hrole : session.role = .ADMIN ∨ session.role = .MANAGER)
    (hvalid : validateMassLoad d = true)
    (hproj : (pt.find? (fun p => p.id == d.projectId)).isSome)
    (hcons : ∀ cid ∈ d.consultantIds, (ct.find? (fun c => c.id == cid)).isSome)
    (hnodup : d.consultantIds.Nodup)
    (hfresh : ∀ cid ∈ d.consultantIds, ∀ w ∈ massLoadWeeksOf d,
      findUnique s (cid, d.projectId, getWeekStart w, d.entryType) = none) :
    createMassLoad ct pt session s d = .ok
      (s ++ massLoadRows d session.id,
        { created := d.consultantIds.length * (massLoadWeeksOf d).length,
          updated := 0, errors := [] }) ∧
    createMassLoad ct pt session (s ++ massLoadRows d session.id) d = .ok
      (massLoadConsultants ct d.projectId d.hours d.entryType d.notes session.id
        (massLoadWeeksOf d) d.consultantIds (s ++ massLoadRows d session.id, ⟨0, 0, []⟩)) ∧
    (massLoadConsultants ct d.projectId d.hours d.entryType d.notes session.id
        (massLoadWeeksOf d) d.consultantIds
        (s ++ massLoadRows d session.id, ⟨0, 0, []⟩)).2 =
      { created := 0, updated := d.consultantIds.length * (massLoadWeeksOf d).length,
        errors := [] } ∧
    ∀ cid ∈ d.consultantIds, ∀ w ∈ massLoadWeeksOf d,
      findUnique (massLoadConsultants ct d.projectId d.hours d.entryType d.notes
          session.id (massLoadWeeksOf d) d.consultantIds
          (s ++ massLoadRows d session.id, ⟨0, 0, []⟩)).1
          (cid, d.projectId, getWeekStart w, d.entryType) =
        some { consultantId := cid, projectId := d.projectId,
               weekStart := getWeekStart w, hours := d.hours,
               entryType := d.entryType, notes := jsOrStr d.notes d.notes,
               createdById := some session.id } := by
  have hwn : ((massLoadWeeksOf d).map getWeekStart).Nodup :=
    weeksMap_nodup d.startDate (d.endDate.getD d.startDate)
  have hnv : ¬(validateMassLoad d = false) := by
    rw [hvalid]
    simp
  obtain ⟨p, hp⟩ := Option.isSome_iff_exists.mp hproj
  have hfcons := massLoadConsultants_fresh ct d.projectId d.hours d.entryType d.notes
    session.id (massLoadWeeksOf d) hwn d.consultantIds s ⟨0, 0, []⟩ hnodup hcons hfresh
  have hpresent : ∀ cid ∈ d.consultantIds, ∀ w ∈ massLoadWeeksOf d,
      findUnique (s ++ massLoadRows d session.id)
          (cid, d.projectId, getWeekStart w, d.entryType) =
        some (mlRow cid d.projectId d.hours d.entryType d.notes session.id w) := by
    intro cid hc w hw
    rw [findUnique_append, hfresh cid hc w hw]
    exact findUnique_consultantRows d.projectId d.hours d.entryType d.notes session.id
      (massLoadWeeksOf d) hwn d.consultantIds cid hc w hw
  have hsome : ∀ cid ∈ d.consultantIds, ∀ w ∈ massLoadWeeksOf d,
      (findUnique (s ++ massLoadRows d session.id)
        (cid, d.projectId, getWeekStart w, d.entryType)).isSome := by
    intro cid hc w hw
    rw [hpresent cid hc w hw]
    rfl
  have hrerun := massLoadConsultants_rerun ct d.projectId d.hours d.entryType d.notes
    session.id (massLoadWeeksOf d) hwn d.consultantIds
    (s ++ massLoadRows d session.id) ⟨0, 0, []⟩ hnodup hcons hsome
  refine ⟨?_, ?_, ?_, ?_⟩
  · unfold createMassLoad
    rw [if_neg (not_not_intro hrole), if_neg hnv]
    simp only [hp]
    rw [show getWeeksInRange d.startDate (d.endDate.getD d.startDate) =
      massLoadWeeksOf d from rfl, hfcons]
    simp [massLoadRows]
  · unfold createMassLoad
    rw [if_neg (not_not_intro hrole), if_neg hnv]
    simp only [hp]
    rfl
  · rw [hrerun.1]
    simp
  · intro cid hc w hw
    exact hrerun.2 cid hc w hw
      (mlRow cid d.projectId d.hours d.entryType d.notes session.id w)
      (hpresent cid hc w hw)

/-- C3 witness: two consultants over the two weeks starting at days 0 and 7,
against an empty store. -/
theorem C3_massLoad_roundtrip_witness :
    validateMassLoad exMassLoadOk = true ∧
    ((exProjects.find? (fun p => p.id == exMassLoadOk.projectId)).isSome = true) ∧
    exMassLoadOk.consultantIds.Nodup ∧
    createMassLoad exConsultantsML exProjects adminSession [] exMassLoadOk = .ok
      ([] ++ massLoadRows exMassLoadOk adminSession.id,
        { created := exMassLoadOk.consultantIds.length *
            (massLoadWeeksOf exMassLoadOk).length,
          updated := 0, errors := [] }) ∧
    (massLoadConsultants exConsultantsML exMassLoadOk.projectId exMassLoadOk.hours
        exMassLoadOk.entryType exMassLoadOk.notes adminSession.id
        (massLoadWeeksOf exMassLoadOk) exMassLoadOk.consultantIds
        ([] ++ massLoadRows exMassLoadOk adminSession.id, ⟨0, 0, []⟩)).2 =
      { created := 0,
        updated := exMassLoadOk.consultantIds.length *
          (massLoadWeeksOf exMassLoadOk).length,
        errors := [] } ∧
    findUnique (massLoadConsultants exConsultantsML exMassLoadOk.projectId
        exMassLoadOk.hours exMassLoadOk.entryType exMassLoadOk.notes adminSession.id
        (massLoadWeeksOf exMassLoadOk) exMassLoadOk.consultantIds
        ([] ++ massLoadRows exMassLoadOk adminSession.id, ⟨0, 0, []⟩)).1
        ("c1", exMassLoadOk.projectId, getWeekStart 0, exMassLoadOk.entryType) =
      some { consultantId := "c1", projectId := exMassLoadOk.projectId,
             weekStart := getWeekStart 0, hours := exMassLoadOk.hours,
             entryType := exMassLoadOk.entryType,
             notes := jsOrStr exMassLoadOk.notes exMassLoadOk.notes,
             createdById := some adminSession.id } := by
  have hvalid : validateMassLoad exMassLoadOk = true := by
    unfold validateMassLoad exMassLoadOk
    norm_num
    exact ⟨by decide, by decide⟩
  have H := C3_massLoad_roundtrip exConsultantsML exProjects adminSession [] exMassLoadOk
    (Or.inl rfl) hvalid (by rfl) (by decide) (by decide) (fun cid _ w _ => rfl)
  exact ⟨hvalid, by rfl, by decide, H.1, H.2.2.1, H.2.2.2 "c1" (by decide) 0 (by decide)⟩

end GTU
